import Mathlib

/-!
# Verification of the flint storage engine against its specification

This file shallowly embeds the storage subsystem of the flint relational
storage engine (`src/storage/*`, `src/types.rs`) and proves or refutes the
frozen claims C1-C10 about it.

Modelling conventions:

* Machine integers are `Nat` (or `Int` for `i64` values), with explicit
  `% 2^w` reductions exactly where the Rust code truncates or wraps
  (`as u16`, `as u32`, release-mode wrapping arithmetic).
* Byte buffers are modelled as functions `Nat → Nat` (byte stores) or as
  `List Nat` (serialized byte strings); a well-formed byte is `< 256`.
* Fallible operations return `Option` / `Except DbError`.  Rust error strings
  are mapped to the constructors of `DbError`, one per `Err(...)` site.
* The `Disk` I/O primitive (`src/storage/io.rs`) is not part of the
  source snapshot; where its behaviour decides a claim it is modelled from
  the specification (section 4.1): positioned exact-length reads and writes,
  no short reads; a read extending past the written extent of a file fails
  (the `UnexpectedEof` behaviour the WAL module relies on).  Written files
  are modelled at record granularity where only presence/absence and the
  stored record matter.
-/

namespace Flint

/-- `2^16`, the number of `u16` values. -/
def U16 : Nat := 65536

/-- `2^32`, the number of `u32` values. -/
def U32 : Nat := 4294967296

/-- `2^64`, the number of `u64` values. -/
def U64 : Nat := 18446744073709551616

/-- `TuplePointer` from `storage/base.rs`: stable address of a row,
`(segment_id : u32, block_id : u8, slot_id : u16)`. -/
structure TuplePointer where
  segmentId : Nat
  blockId : Nat
  slotId : Nat
deriving DecidableEq

/-- `TuplePointer::new`. -/
def TuplePointer.mkPtr (s b sl : Nat) : TuplePointer := ⟨s, b, sl⟩

/-! ## The row codec (`src/types.rs` with bincode's standard configuration)

`Database::insert_row` serializes rows with
`bincode::encode_to_vec(&row, bincode::config::standard())`.  The standard
configuration of bincode 2 is little-endian with *variable-length* integer
encoding: an unsigned integer `< 251` is a single byte; otherwise a marker
byte `251`/`252`/`253` is followed by the value as 2/4/8 little-endian
bytes.  Signed integers are zigzag-mapped to unsigned first.  `u8` values
(the variant tags) are always a single plain byte, `f64` is its 8-byte
little-endian bit pattern, a `String` is its varint-encoded byte length
followed by its UTF-8 bytes, and a `Vec` is its varint-encoded length
followed by its elements. -/

/-- `k` little-endian bytes of `v` (the low `8k` bits). -/
def leBytes : Nat → Nat → List Nat
  | 0, _ => []
  | k + 1, v => v % 256 :: leBytes k (v / 256)

/-- Recompose a little-endian byte list into a value. -/
def leVal : List Nat → Nat
  | [] => 0
  | b :: bs => b + 256 * leVal bs

/-- bincode standard-config varint encoding of an unsigned integer. -/
def varintEncode (n : Nat) : List Nat :=
  if n < 251 then [n]
  else if n < U16 then 251 :: leBytes 2 n
  else if n < U32 then 252 :: leBytes 4 n
  else 253 :: leBytes 8 n

/-- bincode standard-config varint decoding; returns the value and the
remaining bytes. -/
def varintDecode : List Nat → Option (Nat × List Nat)
  | [] => none
  | b :: rest =>
    if b < 251 then some (b, rest)
    else if b = 251 then
      match rest with
      | b0 :: b1 :: r => some (leVal [b0, b1], r)
      | _ => none
    else if b = 252 then
      match rest with
      | b0 :: b1 :: b2 :: b3 :: r => some (leVal [b0, b1, b2, b3], r)
      | _ => none
    else if b = 253 then
      match rest with
      | b0 :: b1 :: b2 :: b3 :: b4 :: b5 :: b6 :: b7 :: r =>
        some (leVal [b0, b1, b2, b3, b4, b5, b6, b7], r)
      | _ => none
    else none

/-- bincode standard-config varint decoding of a `u32`: the decoder is
marker-based, so the 8-byte marker 253 (and anything above) is rejected
outright (`DecodeError`), whatever value its payload would carry; the
markers below it can only produce values that fit `u32`. -/
def varintDecodeU32 : List Nat → Option (Nat × List Nat)
  | [] => none
  | b :: rest =>
    if b < 251 then some (b, rest)
    else if b = 251 then
      match rest with
      | b0 :: b1 :: r => some (leVal [b0, b1], r)
      | _ => none
    else if b = 252 then
      match rest with
      | b0 :: b1 :: b2 :: b3 :: r => some (leVal [b0, b1, b2, b3], r)
      | _ => none
    else none

/-- Zigzag map of an `i64` (bincode's signed-to-unsigned mapping):
`n ≥ 0 ↦ 2n`, `n < 0 ↦ 2|n| - 1`. -/
def zigzag (n : Int) : Nat :=
  if 0 ≤ n then (2 * n).toNat else (2 * (-n) - 1).toNat

/-- Inverse of the zigzag map. -/
def zigzagInv (u : Nat) : Int :=
  if u % 2 = 0 then ((u / 2 : Nat) : Int) else -(((u + 1) / 2 : Nat) : Int)

/-- `Value` from `src/types.rs`.  `Float` carries the IEEE-754 bit pattern
(bincode writes exactly those 8 bytes little-endian); `String` carries the
UTF-8 byte content; `Extension` carries only the `type_oid` (the opaque
payload is not persisted). -/
inductive Value where
  | Null
  | Int (n : Int)
  | Float (bits : Nat)
  | String (bytes : List Nat)
  | Bool (b : Bool)
  | Extension (typeOid : Nat)
deriving DecidableEq

/-- `impl Encode for Value` (`src/types.rs` lines 85-119): a one-byte tag
0-5 followed by the payload in bincode standard encoding. -/
def encodeValue : Value → List Nat
  | .Null => [0]
  | .Int n => 1 :: varintEncode (zigzag n)
  | .Float bits => 2 :: leBytes 8 bits
  | .String s => 3 :: (varintEncode s.length ++ s)
  | .Bool b => 4 :: [if b then 1 else 0]
  | .Extension oid => 5 :: varintEncode oid

/-- `impl Decode for Value` (`src/types.rs` lines 122-154).  Tag 5 decodes
the `type_oid` and yields `Null` ("Extension values are persisted as Null").
The UTF-8 validation of the `String` payload is modelled as succeeding
(it always succeeds on bytes produced by encoding a Rust `String`). -/
def decodeValue (bs : List Nat) : Option (Value × List Nat) :=
  match bs with
  | [] => none
  | tag :: rest =>
    if tag = 0 then some (.Null, rest)
    else if tag = 1 then
      match varintDecode rest with
      | some (u, r) => some (.Int (zigzagInv u), r)
      | none => none
    else if tag = 2 then
      match rest with
      | b0 :: b1 :: b2 :: b3 :: b4 :: b5 :: b6 :: b7 :: r =>
        some (.Float (leVal [b0, b1, b2, b3, b4, b5, b6, b7]), r)
      | _ => none
    else if tag = 3 then
      match varintDecode rest with
      | some (len, r) =>
        if len ≤ r.length then some (.String (r.take len), r.drop len) else none
      | none => none
    else if tag = 4 then
      match rest with
      | 0 :: r => some (.Bool false, r)
      | 1 :: r => some (.Bool true, r)
      | _ => none
    else if tag = 5 then
      match varintDecode rest with
      | some (_, r) => some (.Null, r)
      | none => none
    else none

/-- A row is an ordered list of values (`Row { values: Vec<Value> }`). -/
abbrev Row := List Value

/-- Row serialization as performed by `insert_row`: bincode encodes the
`Vec<Value>` as its varint length followed by the encoded values. -/
def encodeRow (r : Row) : List Nat :=
  varintEncode r.length ++ (r.map encodeValue).flatten

/-- Decode `n` consecutive values. -/
def decodeValues : Nat → List Nat → Option (List Value × List Nat)
  | 0, bs => some ([], bs)
  | n + 1, bs =>
    match decodeValue bs with
    | some (v, r) =>
      match decodeValues n r with
      | some (vs, r') => some (v :: vs, r')
      | none => none
    | none => none

/-- `impl Decode for Row`: decode the length — read as `let len: u32`, so
a length carrying the 8-byte varint marker fails to decode — then that
many values. -/
def decodeRow (bs : List Nat) : Option (Row × List Nat) :=
  match varintDecodeU32 bs with
  | some (len, r) =>
    match decodeValues len r with
    | some (vs, r') => some (vs, r')
    | none => none
  | none => none

/-- Well-formedness of a value as represented in Rust: `i64` range for
ints, `u64` range for float bit patterns, `u8` bytes and `usize` length for
strings, `u32` range for type oids. -/
def ValueWf : Value → Prop
  | .Int n => -(2 ^ 63) ≤ n ∧ n < 2 ^ 63
  | .Float bits => bits < U64
  | .String s => s.length < U64 ∧ ∀ b ∈ s, b < 256
  | .Extension oid => oid < U32
  | _ => True

/-- What a persisted value decodes back to: extension values come back as
`Null`, everything else roundtrips. -/
def storedValue : Value → Value
  | .Extension _ => .Null
  | v => v

theorem leVal_leBytes (k v : Nat) : leVal (leBytes k v) = v % 256 ^ k := by
  induction k generalizing v with
  | zero => simp [leBytes, leVal, Nat.mod_one]
  | succ k ih =>
    simp only [leBytes, leVal, ih]
    rw [Nat.pow_succ']
    rw [Nat.mod_mul]

theorem varintDecode_varintEncode (n : Nat) (hn : n < U64) (r : List Nat) :
    varintDecode (varintEncode n ++ r) = some (n, r) := by
  unfold varintEncode
  by_cases h1 : n < 251
  · simp [varintDecode, h1]
  · by_cases h2 : n < U16
    · simp only [if_neg h1, if_pos h2, leBytes]
      have hv : leVal [n % 256, n / 256 % 256] = n := by
        simp only [leVal]
        have : n < 65536 := h2
        omega
      simp [varintDecode, hv]
    · by_cases h3 : n < U32
      · simp only [if_neg h1, if_neg h2, if_pos h3, leBytes]
        have hv : leVal [n % 256, n / 256 % 256, n / 256 / 256 % 256,
            n / 256 / 256 / 256 % 256] = n := by
          simp only [leVal]
          have : n < 4294967296 := h3
          omega
        simp [varintDecode, hv]
      · simp only [if_neg h1, if_neg h2, if_neg h3, leBytes]
        have hv : leVal [n % 256, n / 256 % 256, n / 256 / 256 % 256,
            n / 256 / 256 / 256 % 256, n / 256 / 256 / 256 / 256 % 256,
            n / 256 / 256 / 256 / 256 / 256 % 256,
            n / 256 / 256 / 256 / 256 / 256 / 256 % 256,
            n / 256 / 256 / 256 / 256 / 256 / 256 / 256 % 256] = n := by
          simp only [leVal]
          have : n < 18446744073709551616 := hn
          omega
        simp [varintDecode, hv]

theorem varintDecodeU32_varintEncode (n : Nat) (hn : n < U32) (r : List Nat) :
    varintDecodeU32 (varintEncode n ++ r) = some (n, r) := by
  unfold varintEncode
  by_cases h1 : n < 251
  · simp [varintDecodeU32, h1]
  · by_cases h2 : n < U16
    · simp only [if_neg h1, if_pos h2, leBytes]
      have hv : leVal [n % 256, n / 256 % 256] = n := by
        simp only [leVal]
        have : n < 65536 := h2
        omega
      simp [varintDecodeU32, hv]
    · simp only [if_neg h1, if_neg h2, if_pos hn, leBytes]
      have hv : leVal [n % 256, n / 256 % 256, n / 256 / 256 % 256,
          n / 256 / 256 / 256 % 256] = n := by
        simp only [leVal]
        have : n < 4294967296 := hn
        omega
      simp [varintDecodeU32, hv]

theorem zigzagInv_zigzag (n : Int) : zigzagInv (zigzag n) = n := by
  unfold zigzag zigzagInv
  by_cases h : 0 ≤ n
  · rw [if_pos h]
    have h2 : ((2 * n).toNat : Int) = 2 * n := Int.toNat_of_nonneg (by omega)
    have hmod : (2 * n).toNat % 2 = 0 := by omega
    rw [if_pos hmod]
    omega
  · rw [if_neg h]
    have h1 : (1 : Int) ≤ -n := by omega
    have h2 : ((2 * (-n) - 1).toNat : Int) = 2 * (-n) - 1 := Int.toNat_of_nonneg (by omega)
    have hmod : (2 * (-n) - 1).toNat % 2 = 1 := by omega
    rw [if_neg (by omega)]
    omega

theorem zigzag_lt (n : Int) (h1 : -(2 ^ 63) ≤ n) (h2 : n < 2 ^ 63) :
    zigzag n < U64 := by
  unfold zigzag U64
  by_cases h : 0 ≤ n
  · rw [if_pos h]; omega
  · rw [if_neg h]; omega

theorem decodeValue_encodeValue (v : Value) (hv : ValueWf v) (r : List Nat) :
    decodeValue (encodeValue v ++ r) = some (storedValue v, r) := by
  cases v with
  | Null => simp [encodeValue, decodeValue, storedValue]
  | Int n =>
    obtain ⟨h1, h2⟩ := hv
    simp only [encodeValue, List.cons_append, decodeValue]
    rw [varintDecode_varintEncode _ (zigzag_lt n h1 h2)]
    simp [zigzagInv_zigzag, storedValue]
  | Float bits =>
    have hb : bits < U64 := hv
    simp only [encodeValue, leBytes, List.cons_append, decodeValue]
    norm_num only
    have hv8 : leVal [bits % 256, bits / 256 % 256, bits / 256 / 256 % 256,
        bits / 256 / 256 / 256 % 256, bits / 256 / 256 / 256 / 256 % 256,
        bits / 256 / 256 / 256 / 256 / 256 % 256,
        bits / 256 / 256 / 256 / 256 / 256 / 256 % 256,
        bits / 256 / 256 / 256 / 256 / 256 / 256 / 256 % 256] = bits := by
      simp only [leVal]
      have : bits < 18446744073709551616 := hb
      omega
    simp [storedValue, hv8]
  | String s =>
    obtain ⟨hlen, _⟩ := hv
    simp only [encodeValue, List.cons_append, decodeValue, List.append_assoc]
    rw [varintDecode_varintEncode _ hlen]
    simp [storedValue, List.take_left, List.drop_left]
  | Bool b =>
    cases b <;> simp [encodeValue, decodeValue, storedValue]
  | Extension oid =>
    have ho : oid < U32 := hv
    simp only [encodeValue, List.cons_append, decodeValue]
    rw [varintDecode_varintEncode _ (by unfold U32 U64 at *; omega)]
    simp [storedValue]

theorem decodeValues_encode (vs : List Value) (hv : ∀ v ∈ vs, ValueWf v) (r : List Nat) :
    decodeValues vs.length ((vs.map encodeValue).flatten ++ r) =
      some (vs.map storedValue, r) := by
  induction vs with
  | nil => simp [decodeValues]
  | cons v vs ih =>
    simp only [List.map_cons, List.flatten_cons, List.length_cons, decodeValues,
      List.append_assoc]
    rw [decodeValue_encodeValue v (hv v (by simp)) _]
    simp [ih (fun w hw => hv w (by simp [hw]))]

/-- Row-codec roundtrip: decoding the bytes written by `insert_row`'s
serialization yields the row with every `Extension` value replaced by
`Null`, consuming exactly the encoded bytes.  The length bound is `u32`:
`Row::decode` reads the length as `let len: u32`, so a longer row's
encoding (an 8-byte length varint) does not decode. -/
theorem decodeRow_encodeRow (row : Row) (hw : ∀ v ∈ row, ValueWf v)
    (hlen : row.length < U32) (r : List Nat) :
    decodeRow (encodeRow row ++ r) = some (row.map storedValue, r) := by
  unfold encodeRow decodeRow
  rw [List.append_assoc, varintDecodeU32_varintEncode _ hlen]
  simp [decodeValues_encode row hw r]

instance : DecidablePred ValueWf := fun v => by
  unfold ValueWf; cases v <;> infer_instance

/-- Two's-complement image of an `i64` in `u64`, as used when reading the
claimed fixed-width layout. -/
def intToU64 (n : Int) : Nat := (n % (18446744073709551616 : Int)).toNat

/-- The row layout exactly as claim C8 words it (for comparison with the
source encoder, not taken from the source): an outer fixed 4-byte `u32`
little-endian length, then each value as a 1-byte tag with an `Int` payload
as fixed 8-byte `i64` little-endian and a `Float` payload as fixed 8-byte
`f64` little-endian. -/
def claimC8ValueBytes : Value → List Nat
  | .Null => [0]
  | .Int n => 1 :: leBytes 8 (intToU64 n)
  | .Float bits => 2 :: leBytes 8 bits
  | .String s => 3 :: (leBytes 4 s.length ++ s)
  | .Bool b => 4 :: [if b then 1 else 0]
  | .Extension oid => 5 :: leBytes 4 oid

/-- Outer frame of the claimed layout: fixed `u32` little-endian length. -/
def claimC8RowBytes (r : Row) : List Nat :=
  leBytes 4 r.length ++ (r.map claimC8ValueBytes).flatten

/-- `BLOCK_SIZE` = 64 KiB. -/
def BLOCK_SIZE : Nat := 65536

/-- Write `data` into the byte store starting at `start`
(`copy_from_slice`). -/
def storeWrite (f : Nat → Nat) (start : Nat) (data : List Nat) : Nat → Nat :=
  fun x => if start ≤ x ∧ x < start + data.length then data.getD (x - start) 0 else f x

/-- Read `len` bytes starting at `start`. -/
def storeRead (f : Nat → Nat) (start len : Nat) : List Nat :=
  (List.range len).map fun i => f (start + i)

/-- Little-endian `u16` view at byte offset `p`. -/
def readLE16 (f : Nat → Nat) (p : Nat) : Nat := f p + 256 * f (p + 1)

/-- Little-endian `u32` view at byte offset `p`. -/
def readLE32 (f : Nat → Nat) (p : Nat) : Nat :=
  f p + 256 * f (p + 1) + 65536 * f (p + 2) + 16777216 * f (p + 3)

/-- Store a `u16` little-endian at byte offset `p`. -/
def writeLE16 (f : Nat → Nat) (p v : Nat) : Nat → Nat :=
  storeWrite f p [v % 256, v / 256 % 256]

/-- Store a `u32` little-endian at byte offset `p`. -/
def writeLE32 (f : Nat → Nat) (p v : Nat) : Nat → Nat :=
  storeWrite f p [v % 256, v / 256 % 256, v / 65536 % 256, v / 16777216 % 256]

/-- In-memory block (`Block { data: Vec<u32> }` viewed as bytes). -/
structure Block where
  bytes : Nat → Nat

/-- `Block::new`: a zeroed buffer whose header is initialized to
`slot_count = 0`, `flags = 0`, `free_start = 16`, `free_end = 65536`. -/
def Block.new : Block :=
  ⟨writeLE32 (writeLE32 (writeLE16 (writeLE16 (fun _ => 0) 0 0) 2 0) 4 16) 8 65536⟩

/-- `header().slot_count`. -/
def Block.slotCount (b : Block) : Nat := readLE16 b.bytes 0

/-- `header().free_start`. -/
def Block.freeStart (b : Block) : Nat := readLE32 b.bytes 4

/-- `header().free_end`. -/
def Block.freeEnd (b : Block) : Nat := readLE32 b.bytes 8

/-- `header().free_space()`: `free_end - free_start` as wrapping `u32`
subtraction (the release build wraps; the value is only meaningful when
`free_start ≤ free_end`). -/
def Block.freeSpace (b : Block) : Nat := (U32 + b.freeEnd - b.freeStart) % U32

/-- `slot(i).offset`. -/
def Block.slotOffset (b : Block) (sid : Nat) : Nat := readLE16 b.bytes (16 + 4 * sid)

/-- `slot(i).length`. -/
def Block.slotLength (b : Block) (sid : Nat) : Nat := readLE16 b.bytes (18 + 4 * sid)

/-- `Block::append_tuple` (`src/storage/base.rs` lines 271-301): check
space, place the data at `free_end - len`, write the slot entry (offset and
length truncated to `u16` exactly as the `as u16` casts do), bump
`slot_count`, advance `free_start`, lower `free_end`; return the new slot
id, or `None` when the block is full. -/
def Block.appendTuple (b : Block) (data : List Nat) : Option (Block × Nat) :=
  let slotId := b.slotCount
  let freeEnd := b.freeEnd
  let freeStart := b.freeStart
  if b.freeSpace < data.length + 4 then none
  else
    let newFreeEnd := (U32 + freeEnd - data.length) % U32
    let f1 := storeWrite b.bytes newFreeEnd data
    let f2 := writeLE16 f1 (16 + 4 * slotId) (newFreeEnd % U16)
    let f3 := writeLE16 f2 (18 + 4 * slotId) (data.length % U16)
    let f4 := writeLE16 f3 0 ((slotId + 1) % U16)
    let f5 := writeLE32 f4 4 ((freeStart + 4) % U32)
    let f6 := writeLE32 f5 8 newFreeEnd
    some (⟨f6⟩, slotId)

/-- `Block::read_tuple`: `None` when the slot is the empty tombstone
`(0, 0)`, otherwise the byte range `[offset, offset + length)`. -/
def Block.readTuple (b : Block) (sid : Nat) : Option (List Nat) :=
  let o := b.slotOffset sid
  let l := b.slotLength sid
  if o = 0 ∧ l = 0 then none else some (storeRead b.bytes o l)

/-- Append a list of byte strings in order, collecting each call's result
(the append loop of the claimed scenario). -/
def Block.appendAll (b : Block) : List (List Nat) → Block × List (Option Nat)
  | [] => (b, [])
  | s :: ss =>
    match b.appendTuple s with
    | none => ((b.appendAll ss).1, none :: (b.appendAll ss).2)
    | some (b', sid) => ((b'.appendAll ss).1, some sid :: (b'.appendAll ss).2)

theorem storeWrite_out {s : Nat} {d : List Nat} (f : Nat → Nat) {x : Nat}
    (h : x < s ∨ s + d.length ≤ x) : storeWrite f s d x = f x := by
  unfold storeWrite
  rw [if_neg]
  omega

theorem storeWrite_in {s : Nat} {d : List Nat} (f : Nat → Nat) {x : Nat}
    (h1 : s ≤ x) (h2 : x < s + d.length) :
    storeWrite f s d x = d.getD (x - s) 0 := by
  unfold storeWrite
  rw [if_pos ⟨h1, h2⟩]

theorem storeRead_ext {f g : Nat → Nat} {start len : Nat}
    (h : ∀ i, i < len → f (start + i) = g (start + i)) :
    storeRead f start len = storeRead g start len := by
  unfold storeRead
  exact List.map_congr_left fun i hi => h i (List.mem_range.mp hi)

theorem storeRead_storeWrite (f : Nat → Nat) (s : Nat) (d : List Nat) :
    storeRead (storeWrite f s d) s d.length = d := by
  unfold storeRead
  refine List.ext_getElem (by simp) fun i h1 h2 => ?_
  simp only [List.getElem_map, List.getElem_range]
  rw [storeWrite_in f (Nat.le_add_right s i) (by simpa using h2)]
  simp [List.getD_eq_getElem?_getD, List.getElem?_eq_getElem h2]

theorem writeLE16_out (f : Nat → Nat) {q v x : Nat} (h : x < q ∨ q + 2 ≤ x) :
    writeLE16 f q v x = f x := by
  unfold writeLE16
  exact storeWrite_out f (by simpa using h)

theorem writeLE32_out (f : Nat → Nat) {q v x : Nat} (h : x < q ∨ q + 4 ≤ x) :
    writeLE32 f q v x = f x := by
  unfold writeLE32
  exact storeWrite_out f (by simpa using h)

theorem readLE16_writeLE16_out (f : Nat → Nat) {p q v : Nat}
    (h : p + 2 ≤ q ∨ q + 2 ≤ p) :
    readLE16 (writeLE16 f q v) p = readLE16 f p := by
  unfold readLE16
  rw [writeLE16_out f (by omega), writeLE16_out f (by omega)]

theorem readLE16_writeLE32_out (f : Nat → Nat) {p q v : Nat}
    (h : p + 2 ≤ q ∨ q + 4 ≤ p) :
    readLE16 (writeLE32 f q v) p = readLE16 f p := by
  unfold readLE16
  rw [writeLE32_out f (by omega), writeLE32_out f (by omega)]

theorem readLE16_storeWrite_out (f : Nat → Nat) {p q : Nat} {d : List Nat}
    (h : p + 2 ≤ q ∨ q + d.length ≤ p) :
    readLE16 (storeWrite f q d) p = readLE16 f p := by
  unfold readLE16
  rw [storeWrite_out f (by omega), storeWrite_out f (by omega)]

theorem readLE32_writeLE16_out (f : Nat → Nat) {p q v : Nat}
    (h : p + 4 ≤ q ∨ q + 2 ≤ p) :
    readLE32 (writeLE16 f q v) p = readLE32 f p := by
  unfold readLE32
  rw [writeLE16_out f (by omega), writeLE16_out f (by omega),
    writeLE16_out f (by omega), writeLE16_out f (by omega)]

theorem readLE32_writeLE32_out (f : Nat → Nat) {p q v : Nat}
    (h : p + 4 ≤ q ∨ q + 4 ≤ p) :
    readLE32 (writeLE32 f q v) p = readLE32 f p := by
  unfold readLE32
  rw [writeLE32_out f (by omega), writeLE32_out f (by omega),
    writeLE32_out f (by omega), writeLE32_out f (by omega)]

theorem readLE32_storeWrite_out (f : Nat → Nat) {p q : Nat} {d : List Nat}
    (h : p + 4 ≤ q ∨ q + d.length ≤ p) :
    readLE32 (storeWrite f q d) p = readLE32 f p := by
  unfold readLE32
  rw [storeWrite_out f (by omega), storeWrite_out f (by omega),
    storeWrite_out f (by omega), storeWrite_out f (by omega)]

theorem readLE16_writeLE16 (f : Nat → Nat) (p v : Nat) :
    readLE16 (writeLE16 f p v) p = v % U16 := by
  unfold readLE16 writeLE16
  rw [storeWrite_in f (by omega) (by simp), storeWrite_in f (by omega) (by simp)]
  simp only [Nat.sub_self, Nat.add_sub_cancel_left, List.getD_cons_zero,
    List.getD_cons_succ]
  unfold U16
  omega

theorem readLE32_writeLE32 (f : Nat → Nat) (p v : Nat) :
    readLE32 (writeLE32 f p v) p = v % U32 := by
  unfold readLE32 writeLE32
  rw [storeWrite_in f (by omega) (by simp), storeWrite_in f (by omega) (by simp),
    storeWrite_in f (by omega) (by simp), storeWrite_in f (by omega) (by simp)]
  simp only [Nat.sub_self, Nat.add_sub_cancel_left, List.getD_cons_zero,
    List.getD_cons_succ]
  unfold U32
  omega

/-- Behaviour of a single successful `append_tuple` on a block whose header
is consistent: the result is `some` with the old `slot_count` as slot id,
the header advances, the new slot entry carries the (possibly truncated)
offset and length, old slots and old tuple bytes are untouched, and the new
tuple bytes read back. -/
theorem appendTuple_spec (b : Block) (data : List Nat)
    (hfs : b.freeStart = 16 + 4 * b.slotCount)
    (hle : b.freeStart ≤ b.freeEnd) (hfe : b.freeEnd ≤ 65536)
    (hsp : data.length + 4 ≤ b.freeEnd - b.freeStart)
    (hn1 : b.slotCount + 1 < U16) :
    ∃ b' : Block,
      b.appendTuple data = some (b', b.slotCount) ∧
      b'.slotCount = b.slotCount + 1 ∧
      b'.freeStart = b.freeStart + 4 ∧
      b'.freeEnd = b.freeEnd - data.length ∧
      b'.slotOffset b.slotCount = (b.freeEnd - data.length) % U16 ∧
      b'.slotLength b.slotCount = data.length % U16 ∧
      (∀ i, i < b.slotCount → b'.slotOffset i = b.slotOffset i ∧
        b'.slotLength i = b.slotLength i) ∧
      (∀ x, b.freeEnd ≤ x → b'.bytes x = b.bytes x) ∧
      storeRead b'.bytes (b.freeEnd - data.length) data.length = data := by
  have hU16 : U16 = 65536 := rfl
  have hU32 : U32 = 4294967296 := rfl
  have hns : ¬ (b.freeSpace < data.length + 4) := by
    unfold Block.freeSpace U32
    omega
  have hnfe : (U32 + b.freeEnd - data.length) % U32 = b.freeEnd - data.length := by
    unfold U32
    omega
  unfold Block.appendTuple
  rw [if_neg hns]
  simp only [hnfe]
  set n := b.slotCount with hn
  set fs := b.freeStart with hfs0
  set fe := b.freeEnd with hfe0
  have hfsnfe : fs + 4 ≤ fe - data.length := by omega
  refine ⟨_, rfl, ?_, ?_, ?_, ?_, ?_, ?_, ?_, ?_⟩
  · show readLE16 _ 0 = n + 1
    rw [readLE16_writeLE32_out _ (by omega), readLE16_writeLE32_out _ (by omega),
      readLE16_writeLE16 _ 0 _]
    simp only [U16] at hn1 ⊢
    omega
  · show readLE32 _ 4 = fs + 4
    rw [readLE32_writeLE32_out _ (by omega), readLE32_writeLE32 _ 4 _]
    simp only [U32]
    omega
  · show readLE32 _ 8 = fe - data.length
    rw [readLE32_writeLE32 _ 8 _]
    simp only [U32]
    omega
  · show readLE16 _ (16 + 4 * n) = (fe - data.length) % U16
    rw [readLE16_writeLE32_out _ (by omega), readLE16_writeLE32_out _ (by omega),
      readLE16_writeLE16_out _ (by omega), readLE16_writeLE16_out _ (by omega),
      readLE16_writeLE16 _ _ _]
    simp only [U16]
    omega
  · show readLE16 _ (18 + 4 * n) = data.length % U16
    rw [readLE16_writeLE32_out _ (by omega), readLE16_writeLE32_out _ (by omega),
      readLE16_writeLE16_out _ (by omega), readLE16_writeLE16 _ _ _]
    simp only [U16]
    omega
  · intro i hi
    constructor
    · show readLE16 _ (16 + 4 * i) = readLE16 b.bytes (16 + 4 * i)
      rw [readLE16_writeLE32_out _ (by omega), readLE16_writeLE32_out _ (by omega),
        readLE16_writeLE16_out _ (by omega), readLE16_writeLE16_out _ (by omega),
        readLE16_writeLE16_out _ (by omega), readLE16_storeWrite_out _ (by omega)]
    · show readLE16 _ (18 + 4 * i) = readLE16 b.bytes (18 + 4 * i)
      rw [readLE16_writeLE32_out _ (by omega), readLE16_writeLE32_out _ (by omega),
        readLE16_writeLE16_out _ (by omega), readLE16_writeLE16_out _ (by omega),
        readLE16_writeLE16_out _ (by omega), readLE16_storeWrite_out _ (by omega)]
  · intro x hx
    show writeLE32 _ 8 _ x = b.bytes x
    rw [writeLE32_out _ (by omega), writeLE32_out _ (by omega),
      writeLE16_out _ (by omega), writeLE16_out _ (by omega),
      writeLE16_out _ (by omega), storeWrite_out _ (by omega)]
  · refine Eq.trans (storeRead_ext fun i hi => ?_) (storeRead_storeWrite b.bytes _ data)
    show writeLE32 _ 8 _ (fe - data.length + i) = _
    rw [writeLE32_out _ (by omega), writeLE32_out _ (by omega),
      writeLE16_out _ (by omega), writeLE16_out _ (by omega),
      writeLE16_out _ (by omega)]

/-- Total byte length of a list of byte strings. -/
def sumLen (ss : List (List Nat)) : Nat := (ss.map List.length).sum

theorem sumLen_append (l1 l2 : List (List Nat)) :
    sumLen (l1 ++ l2) = sumLen l1 + sumLen l2 := by
  unfold sumLen
  simp

theorem sumLen_take_le (l : List (List Nat)) (j : Nat) :
    sumLen (l.take j) ≤ sumLen l := by
  conv_rhs => rw [← List.take_append_drop j l]
  rw [sumLen_append]
  omega

/-- Representation invariant of a block built by appending the byte strings
`done` in order to a fresh block: header bookkeeping, slot entries (with
the source's `u16` truncation), and tuple byte content. -/
def BlockInv (b : Block) (done : List (List Nat)) : Prop :=
  b.slotCount = done.length ∧
  b.freeStart = 16 + 4 * done.length ∧
  b.freeEnd = 65536 - sumLen done ∧
  ∀ i (h : i < done.length),
    b.slotOffset i = (65536 - sumLen (done.take (i + 1))) % U16 ∧
    b.slotLength i = (done.get ⟨i, h⟩).length % U16 ∧
    storeRead b.bytes (65536 - sumLen (done.take (i + 1)))
      (done.get ⟨i, h⟩).length = done.get ⟨i, h⟩

theorem blockInv_new : BlockInv Block.new [] := by
  refine ⟨by decide, by decide, by decide, fun i h => absurd h (by simp)⟩

theorem appendAll_inv (ss done : List (List Nat)) (b : Block)
    (hinv : BlockInv b done)
    (hbound : sumLen (done ++ ss) + 4 * (done ++ ss).length ≤ 65520) :
    BlockInv (b.appendAll ss).1 (done ++ ss) ∧
    (b.appendAll ss).2 =
      (List.range ss.length).map (fun j => some (done.length + j)) := by
  induction ss generalizing b done with
  | nil => simpa [Block.appendAll] using hinv
  | cons s ss ih =>
    obtain ⟨hsc, hfs, hfe, hslots⟩ := hinv
    have hbound' : sumLen done + s.length + sumLen ss +
        4 * (done.length + 1 + ss.length) ≤ 65520 := by
      rw [sumLen_append] at hbound
      simp only [sumLen, List.map_cons, List.sum_cons, List.length_append,
        List.length_cons] at hbound ⊢
      omega
    obtain ⟨b', happ, h1, h2, h3, h4, h5, h6, h7, h8⟩ :=
      appendTuple_spec b s
        (by rw [hfs, hsc]) (by rw [hfs, hfe]; omega) (by rw [hfe]; omega)
        (by rw [hfs, hfe]; omega) (by rw [hsc]; unfold U16; omega)
    have hinv' : BlockInv b' (done ++ [s]) := by
      refine ⟨?_, ?_, ?_, ?_⟩
      · rw [h1, hsc]
        simp
      · rw [h2, hfs]
        simp only [List.length_append, List.length_cons, List.length_nil]
        omega
      · rw [h3, hfe, sumLen_append]
        simp only [sumLen, List.map_cons, List.sum_cons, List.map_nil,
          List.sum_nil]
        omega
      · intro i hilt
        have hlen : (done ++ [s]).length = done.length + 1 := by simp
        rcases Nat.lt_or_ge i done.length with hi | hi
        · obtain ⟨ho, hl, hr⟩ := hslots i hi
          have htake : (done ++ [s]).take (i + 1) = done.take (i + 1) :=
            List.take_append_of_le_length (by omega)
          have hget : (done ++ [s]).get ⟨i, hilt⟩ = done.get ⟨i, hi⟩ := by
            simp [List.getElem_append_left hi]
          obtain ⟨ho', hl'⟩ := h6 i (by omega)
          refine ⟨by rw [ho', ho, htake], by rw [hl', hl, hget], ?_⟩
          rw [htake, hget]
          have hS : sumLen (done.take (i + 1)) ≤ sumLen done :=
            sumLen_take_le done (i + 1)
          have hpt : ∀ j, j < (done.get ⟨i, hi⟩).length →
              b'.bytes (65536 - sumLen (done.take (i + 1)) + j) =
              b.bytes (65536 - sumLen (done.take (i + 1)) + j) := by
            intro j hj
            apply h7
            rw [hfe]
            omega
          exact Eq.trans (storeRead_ext hpt) hr
        · have hieq : i = done.length := by omega
          subst hieq
          have htake : (done ++ [s]).take (done.length + 1) = done ++ [s] := by
            apply List.take_of_length_le
            simp
          have hget : (done ++ [s]).get ⟨done.length, hilt⟩ = s := by
            simp
          have hsum : sumLen (done ++ [s]) = sumLen done + s.length := by
            rw [sumLen_append]
            simp [sumLen]
          refine ⟨?_, ?_, ?_⟩
          · rw [htake, hsum, ← hsc, h4, hfe]
            congr 1
            omega
          · rw [hget, ← hsc, h5]
          · rw [htake, hget, hsum]
            have heq : (65536 : Nat) - (sumLen done + s.length) =
                b.freeEnd - s.length := by
              rw [hfe]
              omega
            rw [heq]
            exact h8
    have hassoc : done ++ s :: ss = (done ++ [s]) ++ ss := by simp
    have hres := ih (done ++ [s]) b' hinv' (by rw [← hassoc]; exact hbound)
    have happAll : b.appendAll (s :: ss) =
        ((b'.appendAll ss).1, some b.slotCount :: (b'.appendAll ss).2) := by
      simp only [Block.appendAll, happ]
    rw [happAll]
    constructor
    · rw [hassoc]
      exact hres.1
    · show some b.slotCount :: (b'.appendAll ss).2 = _
      rw [hres.2, hsc]
      simp only [List.length_cons, List.length_append, List.length_nil]
      rw [List.range_succ_eq_map, List.map_cons, List.map_map]
      simp only [Nat.add_zero, List.cons.injEq]
      refine ⟨trivial, ?_⟩
      apply List.map_congr_left
      intro j hj
      simp only [Function.comp_apply, Option.some.injEq]
      omega

theorem sumLen_cons (a : List Nat) (tl : List (List Nat)) :
    sumLen (a :: tl) = a.length + sumLen tl := by
  simp [sumLen]

theorem getLen_le_sumLen (l : List (List Nat)) (i : Nat) (h : i < l.length) :
    (l.get ⟨i, h⟩).length ≤ sumLen l := by
  induction l generalizing i with
  | nil => simp at h
  | cons a tl ih =>
    cases i with
    | zero => simp [sumLen_cons]
    | succ j =>
      have := ih j (by simpa using h)
      simp only [List.get_eq_getElem, List.getElem_cons_succ, sumLen_cons]
      simp only [List.get_eq_getElem] at this
      omega

theorem one_le_sumLen_take (ss : List (List Nat))
    (hhead : ∀ s, ss.head? = some s → s ≠ []) (i : Nat) (hne : ss ≠ []) :
    1 ≤ sumLen (ss.take (i + 1)) := by
  cases ss with
  | nil => exact absurd rfl hne
  | cons a tl =>
    have ha : a ≠ [] := hhead a rfl
    have : 1 ≤ a.length := List.length_pos.mpr ha
    simp only [List.take_succ_cons, sumLen_cons]
    omega

/-- C7 counterexample: appending the single *empty* byte string to a fresh
block succeeds and returns slot id 0 (so the claimed total-size bound
`0 + 4·1 ≤ 65520` holds), but the stored slot entry is the empty tombstone
`(0, 0)` — `new_free_end = 65536` truncates to 0 in the `u16` slot-offset
cast — so `read_tuple(0)` returns `None` instead of the appended empty
string. -/
theorem C7_counterexample :
    (Block.new.appendAll [[]]).2 = [some 0] ∧
    (Block.new.appendAll [[]]).1.readTuple 0 = none := by
  refine ⟨by decide, by decide⟩

/-- C7 (amended): for byte strings `s_0 … s_{k-1}` whose total length plus
`4k` is at most `BLOCK_SIZE - 16 = 65520`, *provided the first string is
nonempty*, appending them in order to a fresh block succeeds returning slot
ids `0..k`, and afterwards `read_tuple(i)` returns bytes equal to `s_i` for
every `i < k`.  (The counterexample forces the nonemptiness proviso: an
empty first string is recorded as the `(0,0)` tombstone slot.) -/
theorem C7_append_read_roundtrip (ss : List (List Nat))
    (hhead : ∀ s, ss.head? = some s → s ≠ [])
    (hbytes : ∀ s ∈ ss, ∀ x ∈ s, x < 256)
    (hbound : sumLen ss + 4 * ss.length ≤ 65520) :
    (Block.new.appendAll ss).2 = (List.range ss.length).map some ∧
    ∀ i (h : i < ss.length),
      (Block.new.appendAll ss).1.readTuple i = some (ss.get ⟨i, h⟩) := by
  have h := appendAll_inv ss [] Block.new blockInv_new
    (by simpa [sumLen_append] using hbound)
  simp only [List.nil_append, List.length_nil, Nat.zero_add] at h
  obtain ⟨⟨hsc, hfs, hfe, hslots⟩, hres⟩ := h
  constructor
  · rw [hres]
  · intro i hi
    obtain ⟨ho, hl, hr⟩ := hslots i hi
    have hne : ss ≠ [] := by
      intro hemp
      rw [hemp] at hi
      simp at hi
    have hS1 : 1 ≤ sumLen (ss.take (i + 1)) := one_le_sumLen_take ss hhead i hne
    have hSle := sumLen_take_le ss (i + 1)
    have hLi := getLen_le_sumLen ss i hi
    simp only [Block.readTuple]
    rw [ho, hl]
    have hmod1 : (65536 - sumLen (ss.take (i + 1))) % U16 =
        65536 - sumLen (ss.take (i + 1)) := by
      unfold U16
      omega
    have hmod2 : (ss.get ⟨i, hi⟩).length % U16 = (ss.get ⟨i, hi⟩).length := by
      unfold U16
      omega
    rw [hmod1, hmod2]
    rw [if_neg (by omega)]
    exact congrArg some hr

/-- C7 witness: the amended theorem applied to the two byte strings
`[42]` and `[7, 7]`. -/
theorem C7_append_read_roundtrip_witness :
    (Block.new.appendAll [[42], [7, 7]]).2 = [some 0, some 1] ∧
    (Block.new.appendAll [[42], [7, 7]]).1.readTuple 1 = some [7, 7] := by
  have h := C7_append_read_roundtrip [[42], [7, 7]]
    (by
      intro s hs
      simp only [List.head?] at hs
      injection hs with hs
      rw [← hs]
      decide)
    (by decide) (by decide)
  refine ⟨?_, ?_⟩
  · rw [h.1]
    decide
  · have h2 := h.2 1 (by decide)
    simpa using h2

/-! ## Segment header and the block allocator
(`src/storage/base.rs` lines 77-124, `src/storage/files.rs` lines 112-169)

`allocate_block` and `free_block` read the 64 KiB segment header, transform
it, and write it back; the header roundtrips losslessly through the disk
buffer, so the runs below evolve the header record directly.  The magic
check of `read_segment_header` is included. -/

/-- `SEGMENT_MAGIC` = `0x464C4E54` ("FLNT"). -/
def SEGMENT_MAGIC : Nat := 0x464C4E54

/-- `SegmentHeader` (the reserved tail bytes carry no state). -/
structure SegmentHeader where
  magic : Nat
  segmentId : Nat
  blocksUsed : Nat
  blockFreeBitmap : Nat
deriving DecidableEq

/-- `SegmentHeader::new`: `blocks_used = 0`, bitmap `!0` (all 32 bits
set, every block free). -/
def SegmentHeader.newHeader (segmentId : Nat) : SegmentHeader :=
  ⟨SEGMENT_MAGIC, segmentId, 0, 4294967295⟩

/-- `is_block_free`: bit `b` of the bitmap (1 = free). -/
def SegmentHeader.isBlockFree (h : SegmentHeader) (b : Nat) : Bool :=
  h.blockFreeBitmap.testBit b

/-- `mark_block_used`: `bitmap &= !(1 << b)`; `blocks_used += 1` (u32). -/
def SegmentHeader.markBlockUsed (h : SegmentHeader) (b : Nat) : SegmentHeader :=
  { h with
    blockFreeBitmap := h.blockFreeBitmap &&& (4294967295 ^^^ (1 <<< b)),
    blocksUsed := (h.blocksUsed + 1) % U32 }

/-- `mark_block_free`: `bitmap |= 1 << b`; decrement `blocks_used`,
saturating at zero. -/
def SegmentHeader.markBlockFree (h : SegmentHeader) (b : Nat) : SegmentHeader :=
  { h with
    blockFreeBitmap := h.blockFreeBitmap ||| (1 <<< b),
    blocksUsed := if h.blocksUsed > 0 then h.blocksUsed - 1 else h.blocksUsed }

/-- The search loop of `TableFile::allocate_block`: in segment 0 the scan
starts at block 1 (block 0 is reserved for a table header), elsewhere at
block 0; the first free bit is claimed, or `none` when the segment is
full. -/
def allocateBlockHeader (h : SegmentHeader) (segmentId : Nat) :
    SegmentHeader × Option Nat :=
  match (List.range' (if segmentId = 0 then 1 else 0)
      (31 - if segmentId = 0 then 1 else 0)).find? (fun b => h.isBlockFree b) with
  | some b => (h.markBlockUsed b, some b)
  | none => (h, none)

/-- One allocator call as claim C6 interleaves them. -/
inductive SegOp where
  | alloc
  | free (b : Nat)
deriving DecidableEq

/-- Run a sequence of `allocate_block` / `free_block` calls on one segment
header (the disk roundtrip of the header is the identity; the magic is
never modified, so `read_segment_header`'s magic check always passes on
these runs). -/
def runSegOps (segmentId : Nat) (h : SegmentHeader) : List SegOp → SegmentHeader
  | [] => h
  | .alloc :: ops => runSegOps segmentId (allocateBlockHeader h segmentId).1 ops
  | .free b :: ops => runSegOps segmentId (h.markBlockFree b) ops

/-- Popcount of cleared bits among the 31 block positions. -/
def countCleared (h : SegmentHeader) : Nat :=
  (List.range 31).countP (fun b => ! h.blockFreeBitmap.testBit b)

/-- Validity of a run: every `free_block` targets a block position
(`b < 31`) that is currently in use (its bit is cleared). -/
def ValidSegOps (segmentId : Nat) (h : SegmentHeader) : List SegOp → Prop
  | [] => True
  | .alloc :: ops => ValidSegOps segmentId (allocateBlockHeader h segmentId).1 ops
  | .free b :: ops => b < 31 ∧ h.isBlockFree b = false ∧
      ValidSegOps segmentId (h.markBlockFree b) ops

theorem countP_flip_true {p q : Nat → Bool} (l : List Nat) (b : Nat)
    (hagree : ∀ x ∈ l, x ≠ b → p x = q x) (hnd : l.Nodup) (hb : b ∈ l)
    (hpb : p b = false) (hqb : q b = true) :
    l.countP q = l.countP p + 1 := by
  induction l with
  | nil => simp at hb
  | cons a tl ih =>
    rcases List.nodup_cons.mp hnd with ⟨hna, hndtl⟩
    by_cases hab : a = b
    · subst hab
      have htl : tl.countP q = tl.countP p := by
        refine List.countP_congr fun x hx => ?_
        rw [hagree x (by simp [hx]) (fun hxa => hna (hxa ▸ hx))]
      simp [List.countP_cons, hpb, hqb, htl]
    · have hb' : b ∈ tl := by
        rcases List.mem_cons.mp hb with h | h
        · exact absurd h.symm hab
        · exact h
      have hpa : p a = q a := hagree a (by simp) hab
      have := ih (fun x hx hxb => hagree x (by simp [hx]) hxb) hndtl hb'
      simp [List.countP_cons, hpa, this]
      omega

theorem countP_flip_false {p q : Nat → Bool} (l : List Nat) (b : Nat)
    (hagree : ∀ x ∈ l, x ≠ b → p x = q x) (hnd : l.Nodup) (hb : b ∈ l)
    (hpb : p b = true) (hqb : q b = false) :
    l.countP p = l.countP q + 1 :=
  countP_flip_true l b (fun x hx hxb => (hagree x hx hxb).symm) hnd hb hqb hpb

theorem testBit_markUsed (h : SegmentHeader) (b j : Nat) (hj : j < 32) :
    (h.markBlockUsed b).blockFreeBitmap.testBit j =
      (h.blockFreeBitmap.testBit j && ! decide (j = b)) := by
  simp only [SegmentHeader.markBlockUsed, Nat.testBit_and, Nat.testBit_xor,
    Nat.shiftLeft_eq, Nat.one_mul, Nat.testBit_two_pow]
  have h32 : (4294967295 : Nat).testBit j = true := by
    have : (4294967295 : Nat) = 2 ^ 32 - 1 := by norm_num
    rw [this, Nat.testBit_two_pow_sub_one]
    simpa using hj
  rw [h32]
  have hbj : decide (b = j) = decide (j = b) := by
    simp [eq_comm]
  rw [hbj]
  cases decide (j = b) <;> cases h.blockFreeBitmap.testBit j <;> rfl

theorem testBit_markFree (h : SegmentHeader) (b j : Nat) :
    (h.markBlockFree b).blockFreeBitmap.testBit j =
      (h.blockFreeBitmap.testBit j || decide (j = b)) := by
  simp only [SegmentHeader.markBlockFree, Nat.testBit_or, Nat.shiftLeft_eq,
    Nat.one_mul, Nat.testBit_two_pow]
  have hbj : decide (b = j) = decide (j = b) := by
    simp [eq_comm]
  rw [hbj]

theorem countCleared_le (h : SegmentHeader) : countCleared h ≤ 31 := by
  unfold countCleared
  calc (List.range 31).countP _ ≤ (List.range 31).length := List.countP_le_length _
  _ = 31 := by simp

theorem countCleared_markUsed (h : SegmentHeader) (b : Nat) (hb : b < 31)
    (hfree : h.isBlockFree b = true) :
    countCleared (h.markBlockUsed b) = countCleared h + 1 := by
  unfold countCleared
  refine countP_flip_true _ b ?_ (List.nodup_range 31) (List.mem_range.mpr hb) ?_ ?_
  · intro x hx hxb
    have hx32 : x < 32 := by have := List.mem_range.mp hx; omega
    rw [testBit_markUsed h b x hx32]
    simp [hxb]
  · simp [SegmentHeader.isBlockFree] at hfree
    simp [hfree]
  · rw [testBit_markUsed h b b (by omega)]
    simp

theorem countCleared_markFree (h : SegmentHeader) (b : Nat) (hb : b < 31)
    (hused : h.isBlockFree b = false) :
    countCleared h = countCleared (h.markBlockFree b) + 1 := by
  unfold countCleared
  refine countP_flip_false _ b ?_ (List.nodup_range 31) (List.mem_range.mpr hb) ?_ ?_
  · intro x hx hxb
    rw [testBit_markFree h b x]
    simp [hxb]
  · simp [SegmentHeader.isBlockFree] at hused
    simp [hused]
  · rw [testBit_markFree h b b]
    simp

theorem segInv_run (segmentId : Nat) (ops : List SegOp) (h : SegmentHeader)
    (hinv : h.blocksUsed = countCleared h)
    (hvalid : ValidSegOps segmentId h ops) :
    (runSegOps segmentId h ops).blocksUsed =
      countCleared (runSegOps segmentId h ops) := by
  induction ops generalizing h with
  | nil => exact hinv
  | cons op ops ih =>
    cases op with
    | alloc =>
      simp only [ValidSegOps] at hvalid
      have hpres : (allocateBlockHeader h segmentId).1.blocksUsed =
          countCleared (allocateBlockHeader h segmentId).1 := by
        unfold allocateBlockHeader
        generalize hf : (List.range' (if segmentId = 0 then 1 else 0)
            (31 - if segmentId = 0 then 1 else 0)).find?
            (fun b => h.isBlockFree b) = fr
        cases fr with
        | none => simpa using hinv
        | some b =>
          have hpb : h.isBlockFree b = true := List.find?_some hf
          have hmem := List.mem_of_find?_eq_some hf
          have hb31 : b < 31 := by
            have := List.mem_range'_1.mp hmem
            omega
          show (h.markBlockUsed b).blocksUsed = countCleared (h.markBlockUsed b)
          rw [countCleared_markUsed h b hb31 hpb]
          have hle := countCleared_le h
          show (h.blocksUsed + 1) % U32 = _
          unfold U32
          omega
      exact ih _ hpres hvalid
    | free b =>
      obtain ⟨hb31, hused, hvalid'⟩ := hvalid
      have hcnt := countCleared_markFree h b hb31 hused
      have hpres : (h.markBlockFree b).blocksUsed =
          countCleared (h.markBlockFree b) := by
        show (if h.blocksUsed > 0 then h.blocksUsed - 1 else h.blocksUsed) = _
        rw [if_pos (by omega)]
        omega
      exact ih _ hpres hvalid'

/-- C6 counterexample: starting from a freshly initialized segment 0,
the interleaving `allocate_block; free_block(2)` (a free of a block that
was never allocated — bit 2 is still set) leaves `blocks_used = 0` while
the bitmap has one cleared bit (block 1), so the claimed invariant
`blocks_used = popcount of cleared bits` fails: 0 ≠ 1. -/
theorem C6_counterexample :
    (runSegOps 0 (SegmentHeader.newHeader 0)
      [SegOp.alloc, SegOp.free 2]).blocksUsed = 0 ∧
    countCleared (runSegOps 0 (SegmentHeader.newHeader 0)
      [SegOp.alloc, SegOp.free 2]) = 1 := by
  refine ⟨by decide, by decide⟩

/-- C6 (amended): after any interleaving of `allocate_block(seg)` and
`free_block(seg, b)` starting from an initialized segment, *provided every
`free_block` call targets a block position `< 31` whose bit is currently
cleared (i.e. a block actually in use)*, `blocks_used` equals the popcount
of cleared bits among the 31 block positions of `block_free_bitmap`.  The
proviso is forced by the counterexample: `free_block` decrements
`blocks_used` (saturating) even when the freed bit was already set. -/
theorem C6_segment_allocator (segmentId : Nat) (ops : List SegOp)
    (hvalid : ValidSegOps segmentId (SegmentHeader.newHeader segmentId) ops) :
    (runSegOps segmentId (SegmentHeader.newHeader segmentId) ops).blocksUsed =
      countCleared (runSegOps segmentId (SegmentHeader.newHeader segmentId) ops) :=
  segInv_run segmentId ops _
    (by
      have hb : (SegmentHeader.newHeader segmentId).blockFreeBitmap =
          4294967295 := rfl
      show (0 : Nat) = countCleared (SegmentHeader.newHeader segmentId)
      unfold countCleared
      rw [hb]
      decide)
    hvalid

/-- C6 witness: the amended theorem applied to the valid run
`allocate; allocate; free(1)` on segment 0. -/
theorem C6_segment_allocator_witness :
    ValidSegOps 0 (SegmentHeader.newHeader 0)
      [SegOp.alloc, SegOp.alloc, SegOp.free 1] ∧
    (runSegOps 0 (SegmentHeader.newHeader 0)
      [SegOp.alloc, SegOp.alloc, SegOp.free 1]).blocksUsed =
      countCleared (runSegOps 0 (SegmentHeader.newHeader 0)
        [SegOp.alloc, SegOp.alloc, SegOp.free 1]) := by
  have hvalid : ValidSegOps 0 (SegmentHeader.newHeader 0)
      [SegOp.alloc, SegOp.alloc, SegOp.free 1] := by
    simp only [ValidSegOps]
    decide
  exact ⟨hvalid, C6_segment_allocator 0 _ hvalid⟩


/-! ## Index pages (`src/storage/index/page.rs`)

A 4 KiB index page is modelled at entry granularity: the header's leaf
flag, sibling pointers and `num_keys`, and the `IndexEntry` array
`[0, num_keys)`.  Page ids (`PageId`) are carried as their raw `u32` value
(`segment << 16 | offset`); the source decodes and re-encodes the pair,
which is the identity on the raw value. -/

/-- `INDEX_MAGIC` = `0x494E4458` ("INDX").  Pages written by the model
always carry a valid magic; the `validate` check of `header()` therefore
passes on every page image read back below. -/
def INDEX_MAGIC : Nat := 0x494E4458

/-- `IndexEntry` (16 bytes): key, and either a tuple pointer (leaf) or a
child page id packed into `segment_id` (internal). -/
structure IndexEntry where
  key : Nat
  segmentId : Nat
  blockId : Nat
  slotId : Nat
deriving DecidableEq

/-- `IndexEntry::new`. -/
def IndexEntry.newEntry (key : Nat) (ptr : TuplePointer) : IndexEntry :=
  ⟨key, ptr.segmentId, ptr.blockId, ptr.slotId⟩

/-- `IndexEntry::as_tuple_pointer`. -/
def IndexEntry.asTuplePointer (e : IndexEntry) : TuplePointer :=
  ⟨e.segmentId, e.blockId, e.slotId⟩

/-- `IndexEntry::as_child_page_id`: the raw `u32` stored in `segment_id`
(decode to `(segment, offset)` and re-encode: the identity on raws). -/
def IndexEntry.asChildPageId (e : IndexEntry) : Nat := e.segmentId

/-- Errors of the storage layer, one constructor per `Err(...)` site of the
source (the Rust error payloads are strings; only the site matters). -/
inductive DbError where
  | tableNotFound
  | tableExists
  | arityMismatch
  | serializationErr
  | segmentFull
  | readBlockFailed
  | blockFull
  | emptyRow
  | nullPrimaryKey
  | pkNotInt
  | indexFileNotFound
  | unexpectedEof
  | badMagic
  | pageFull
  | posOutOfRange
  | tooManyEntries
  | entryOutOfRange
  | noRootPage
  | internalNoKeys
  | loopLimit
  | createIndexFailed
  | catalogLoadFailed
deriving DecidableEq

/-- Propositional equality on `Except` results is decidable (not provided
by the core library for `Except`). -/
instance exceptDecEq {ε α : Type} [DecidableEq ε] [DecidableEq α] :
    DecidableEq (Except ε α) := fun x y =>
  match x, y with
  | .ok a, .ok b =>
    if h : a = b then .isTrue (by rw [h])
    else .isFalse (fun hc => h (by cases hc; rfl))
  | .error a, .error b =>
    if h : a = b then .isTrue (by rw [h])
    else .isFalse (fun hc => h (by cases hc; rfl))
  | .ok _, .error _ => .isFalse (fun hc => by cases hc)
  | .error _, .ok _ => .isFalse (fun hc => by cases hc)

/-- In-memory index page. -/
structure IndexPage where
  isLeaf : Bool
  prevPageId : Nat
  nextPageId : Nat
  entries : List IndexEntry
deriving DecidableEq

/-- `IndexPage::new`: empty page, no siblings. -/
def IndexPage.newPage (isLeaf : Bool) : IndexPage := ⟨isLeaf, 0, 0, []⟩

/-- `IndexPage::max_entries()` = (4096 - 64) / 16 = 252. -/
def MAX_ENTRIES : Nat := 252

/-- The `while left < right` loop of `IndexPage::binary_search`.
`getD` stands in for `get_entry`, whose bounds error cannot fire while
`right ≤ num_keys`.  The loop body shrinks `right - left` on every
iteration, so running it with fuel `right - left + 1` is exact; the
fuel-exhaustion arm is unreachable. -/
def bsGo (es : List IndexEntry) (key : Nat) : Nat → Nat → Nat → Bool × Nat
  | 0, left, _ => (false, left)
  | fuel + 1, left, right =>
    if left < right then
      let mid := (left + right) / 2
      let e := es.getD mid ⟨0, 0, 0, 0⟩
      if e.key = key then (true, mid)
      else if e.key < key then bsGo es key fuel (mid + 1) right
      else bsGo es key fuel left mid
    else (false, left)

/-- `IndexPage::binary_search`: `(found, position-or-insertion-point)`. -/
def IndexPage.binarySearch (p : IndexPage) (key : Nat) : Bool × Nat :=
  bsGo p.entries key (p.entries.length + 1) 0 p.entries.length

/-- `IndexPage::get_entry`. -/
def IndexPage.getEntry (p : IndexPage) (pos : Nat) : Except DbError IndexEntry :=
  match p.entries.get? pos with
  | some e => .ok e
  | none => .error .entryOutOfRange

/-- `IndexPage::insert_at`: reject a full page (252 entries, the
`ErrorKind::Other` "Index page full" error) or an out-of-range position,
else shift right and place the entry. -/
def IndexPage.insertAt (p : IndexPage) (pos : Nat) (e : IndexEntry) :
    Except DbError IndexPage :=
  if p.entries.length ≥ MAX_ENTRIES then .error .pageFull
  else if pos > p.entries.length then .error .posOutOfRange
  else .ok { p with entries := p.entries.take pos ++ e :: p.entries.drop pos }

/-- `IndexPage::set_entries`: rebuild the page with a fresh header (this
also zeroes both sibling pointers, as `IndexPageHeader::new` does). -/
def IndexPage.setEntries (_p : IndexPage) (isLeaf : Bool)
    (es : List IndexEntry) : Except DbError IndexPage :=
  if es.length > MAX_ENTRIES then .error .tooManyEntries
  else .ok ⟨isLeaf, 0, 0, es⟩

/-- `IndexPage::next_sibling` (0 means none). -/
def IndexPage.nextSibling (p : IndexPage) : Option Nat :=
  if p.nextPageId = 0 then none else some p.nextPageId

/-- `IndexPage::set_next_sibling`. -/
def IndexPage.setNextSibling (p : IndexPage) (n : Option Nat) : IndexPage :=
  { p with nextPageId := match n with | some pid => pid | none => 0 }

/-! ## IndexFile (`src/storage/files.rs` lines 177-254)

A `.idx` file of 4 KiB pages.  `next_page_id` is runtime state of the open
handle (reset to 0 by `IndexFile::open`); `pages` maps a raw page id to the
last page image written there.  Spec-modelled disk: reading a page that was
never written fails (past the written extent it is an `UnexpectedEof`; a
zero-filled hole inside the extent would fail the header magic check
instead — an error either way, and no claim distinguishes the two). -/

structure IndexFileState where
  nextPageId : Nat
  pages : List (Nat × IndexPage)
deriving DecidableEq

/-- A freshly opened (empty) index file. -/
def IndexFileState.newFile : IndexFileState := ⟨0, []⟩

/-- `IndexFile::allocate_page`: bump the counter and return
`PageId::new(0, next & 0xFFFF)` (raw value `next % 2^16`). -/
def IndexFileState.allocatePage (f : IndexFileState) : IndexFileState × Nat :=
  ({ f with nextPageId := f.nextPageId + 1 }, f.nextPageId % 65536)

/-- `IndexFile::read_page`. -/
def IndexFileState.readPage (f : IndexFileState) (pid : Nat) :
    Except DbError IndexPage :=
  match f.pages.lookup pid with
  | some p => .ok p
  | none => .error .unexpectedEof

/-- `IndexFile::write_page` (the page image always has the right size in
this model, so the size check never fires). -/
def IndexFileState.writePage (f : IndexFileState) (pid : Nat) (p : IndexPage) :
    IndexFileState :=
  { f with pages := (pid, p) :: f.pages.filter (fun q => q.1 != pid) }

/-! ## B+-tree (`src/storage/index/btree.rs`)

`NodeType::Leaf` / `NodeType::Internal` (referenced by `btree.rs` but
defined in a revision of `page.rs` newer than the snapshot's) is carried as
the `is_leaf` flag. -/

/-- `BTree { root_page_id }`. -/
structure BTree where
  rootPageId : Option Nat
deriving DecidableEq

/-- `SplitResult` of `split_page`. -/
structure SplitResult where
  promotedKey : Nat
  rightPage : IndexPage
deriving DecidableEq

/-- `IndexSplit` returned to the caller: the promoted key and the right
sibling's page image (`right_sibling_data`). -/
structure IndexSplit where
  promotedKey : Nat
  rightSiblingData : IndexPage
deriving DecidableEq

/-- `BTree::split_page`: insert the new entry in memory, split at the
midpoint, left half stays in the page, right half goes to a fresh page;
promote the right half's first key.  (`right_entries[0]` cannot panic: the
split of 253 entries leaves the right half nonempty; the empty case is
mapped to an error.) -/
def splitPage (page : IndexPage) (insertPos : Nat) (newEntry : IndexEntry) :
    Except DbError (IndexPage × Option SplitResult) :=
  let entries := page.entries.take insertPos ++ newEntry :: page.entries.drop insertPos
  let splitPoint := entries.length / 2
  let rightEntries := entries.drop splitPoint
  match rightEntries with
  | [] => .error .entryOutOfRange
  | re0 :: _ =>
    match page.setEntries page.isLeaf (entries.take splitPoint) with
    | .error e => .error e
    | .ok leftPage =>
      match (IndexPage.newPage page.isLeaf).setEntries page.isLeaf rightEntries with
      | .error e => .error e
      | .ok rightPage => .ok (leftPage, some ⟨re0.key, rightPage⟩)

/-- `BTree::insert_into_page`: upsert in place on a hit; otherwise
`insert_at`, split on the page-full error. -/
def insertIntoPage (page : IndexPage) (key : Nat) (ptr : TuplePointer) :
    Except DbError (IndexPage × Option SplitResult) :=
  match page.binarySearch key with
  | (true, pos) =>
    .ok ({ page with entries := page.entries.take pos ++
      IndexEntry.newEntry key ptr :: page.entries.drop (pos + 1) }, none)
  | (false, pos) =>
    match page.insertAt pos (IndexEntry.newEntry key ptr) with
    | .ok p => .ok (p, none)
    | .error .pageFull => splitPage page pos (IndexEntry.newEntry key ptr)
    | .error e => .error e

/-- `BTree::search_page`. -/
def searchPage (page : IndexPage) (key : Nat) :
    Except DbError (Option TuplePointer) :=
  let fp := page.binarySearch key
  if fp.1 then
    match page.getEntry fp.2 with
    | .ok e => .ok (some e.asTuplePointer)
    | .error e => .error e
  else .ok none

/-- `BTree::range_scan_page`: collect the entries of one leaf whose key
lies in `[start_key, end_key]`. -/
def rangeScanPage (page : IndexPage) (startKey endKey : Nat) :
    List (Nat × TuplePointer) :=
  page.entries.filterMap fun e =>
    if startKey ≤ e.key ∧ e.key ≤ endKey then some (e.key, e.asTuplePointer)
    else none

/-- The descent loop of `BTree::find_leaf_page`.  The source loop has no
bound (a cyclic child graph diverges); the model carries fuel, always
sufficient for the acyclic states the claims reach. -/
def findLeafPageAux (f : IndexFileState) (key : Nat) :
    Nat → Nat → Except DbError IndexPage
  | _, 0 => .error .loopLimit
  | pid, fuel + 1 =>
    match f.readPage pid with
    | .error e => .error e
    | .ok page =>
      if page.isLeaf then .ok page
      else
        let fp := page.binarySearch key
        if fp.2 < page.entries.length then
          match page.getEntry fp.2 with
          | .ok e => findLeafPageAux f key e.asChildPageId fuel
          | .error er => .error er
        else if page.entries.length = 0 then .error .internalNoKeys
        else
          match page.getEntry (page.entries.length - 1) with
          | .ok e => findLeafPageAux f key e.asChildPageId fuel
          | .error er => .error er

/-- `BTree::find_leaf_page`. -/
def BTree.findLeaf (t : BTree) (key : Nat) (f : IndexFileState) :
    Except DbError IndexPage :=
  match t.rootPageId with
  | none => .error .noRootPage
  | some pid => findLeafPageAux f key pid (f.pages.length + 1)

/-- `impl Index for BTree :: insert`: read the root (`unwrap()` on a
missing root panics in the source; modelled as an error), insert into it,
write it back; on a split also allocate and write the right sibling and
hand the split up (no new parent is built). -/
def BTree.insertIdx (t : BTree) (key : Nat) (ptr : TuplePointer)
    (f : IndexFileState) : Except DbError (IndexFileState × Option IndexSplit) :=
  match t.rootPageId with
  | none => .error .noRootPage
  | some rootId =>
    match f.readPage rootId with
    | .error e => .error e
    | .ok rootPage =>
      match insertIntoPage rootPage key ptr with
      | .error e => .error e
      | .ok (newRoot, none) => .ok (f.writePage rootId newRoot, none)
      | .ok (newRoot, some split) =>
        let f1 := f.writePage rootId newRoot
        let far := f1.allocatePage
        let f3 := far.1.writePage far.2 split.rightPage
        .ok (f3, some ⟨split.promotedKey, split.rightPage⟩)

/-- `impl Index for BTree :: search`. -/
def BTree.searchIdx (t : BTree) (key : Nat) (f : IndexFileState) :
    Except DbError (Option TuplePointer) :=
  match t.findLeaf key f with
  | .error e => .error e
  | .ok leaf => searchPage leaf key

/-- `impl OrderedIndex for BTree :: range_scan` — the statically-dispatched
implementation.  It exists in the source but is unreachable through
`Box<dyn Index>`, which is the only way the `Database` holds indexes. -/
def BTree.rangeScanOrdered (t : BTree) (startKey endKey : Nat)
    (f : IndexFileState) : Except DbError (List (Nat × TuplePointer)) :=
  match t.findLeaf startKey f with
  | .error e => .error e
  | .ok leaf => .ok (rangeScanPage leaf startKey endKey)


/-! ## Claim C9: midpoint split at the 253rd insert -/

/-- The claim's starting state: an index file whose root page 0 is an empty
leaf (the B+-tree "whose root is an empty leaf"). -/
def c9File : IndexFileState := ⟨1, [(0, IndexPage.newPage true)]⟩

/-- The tree under test, rooted at page 0. -/
def c9Tree : BTree := ⟨some 0⟩

/-- The distinct tuple pointers of the scenario: `ptr_i = (0, 1, i)`. -/
def c9Ptr (i : Nat) : TuplePointer := TuplePointer.mkPtr 0 1 i

/-- One insert of the scenario, threading the file state and collecting
the split result. -/
def c9Step (acc : Except DbError (IndexFileState × List (Option IndexSplit)))
    (i : Nat) : Except DbError (IndexFileState × List (Option IndexSplit)) :=
  match acc with
  | .error e => .error e
  | .ok (f, results) =>
    match c9Tree.insertIdx i (c9Ptr i) f with
    | .error e => .error e
    | .ok (f2, r) => .ok (f2, results ++ [r])

/-- Insert keys `0 .. n-1` in increasing order, collecting each insert's
split result. -/
def c9Run (n : Nat) : Except DbError (IndexFileState × List (Option IndexSplit)) :=
  (List.range n).foldl c9Step (.ok (c9File, []))

/-- The root leaf after the first `n` ascending inserts. -/
def c9Leaf (n : Nat) : IndexPage :=
  ⟨true, 0, 0, (List.range n).map fun i => IndexEntry.mk i 0 1 i⟩

theorem bsGo_all_lt (es : List IndexEntry) (key : Nat)
    (hall : ∀ e ∈ es, e.key < key) :
    ∀ fuel left right, right ≤ es.length → left ≤ right → right - left < fuel →
      bsGo es key fuel left right = (false, right) := by
  intro fuel
  induction fuel with
  | zero =>
    intro left right _ _ h3
    omega
  | succ fuel ih =>
    intro left right h1 h2 h3
    by_cases hlr : left < right
    · have hmlt : (left + right) / 2 < es.length := by omega
      have hkey : (es.getD ((left + right) / 2) ⟨0, 0, 0, 0⟩).key < key := by
        rw [List.getD_eq_getElem es _ hmlt]
        exact hall _ (List.getElem_mem hmlt)
      show (if left < right then _ else _) = _
      rw [if_pos hlr, if_neg (by omega), if_pos hkey]
      exact ih ((left + right) / 2 + 1) right h1 (by omega) (by omega)
    · show (if left < right then _ else _) = _
      rw [if_neg hlr]
      have : left = right := by omega
      rw [this]

theorem c9Leaf_length (n : Nat) : (c9Leaf n).entries.length = n := by
  simp [c9Leaf]

theorem c9Leaf_binarySearch (n : Nat) : (c9Leaf n).binarySearch n = (false, n) := by
  unfold IndexPage.binarySearch
  rw [c9Leaf_length]
  refine bsGo_all_lt _ n ?_ (n + 1) 0 n (le_of_eq (c9Leaf_length n).symm)
    (by omega) (by omega)
  intro e he
  simp only [c9Leaf, List.mem_map, List.mem_range] at he
  obtain ⟨i, hi, rfl⟩ := he
  exact hi

theorem c9Run_closed (n : Nat) (hn : n ≤ 252) :
    c9Run n = .ok (⟨1, [(0, c9Leaf n)]⟩, List.replicate n none) := by
  induction n with
  | zero => rfl
  | succ n ih =>
    have hn' : n ≤ 252 := by omega
    have hstep : c9Run (n + 1) = c9Step (c9Run n) n := by
      show (List.range (n + 1)).foldl c9Step (.ok (c9File, [])) =
        c9Step ((List.range n).foldl c9Step (.ok (c9File, []))) n
      rw [List.range_succ, List.foldl_append]
      simp only [List.foldl_cons, List.foldl_nil]
    have hia : (c9Leaf n).insertAt n (IndexEntry.newEntry n (c9Ptr n)) =
        .ok (c9Leaf (n + 1)) := by
      unfold IndexPage.insertAt
      rw [c9Leaf_length]
      rw [if_neg (by simp only [MAX_ENTRIES]; omega), if_neg (by omega)]
      rw [List.take_of_length_le (le_of_eq (c9Leaf_length n)),
        List.drop_eq_nil_of_le (le_of_eq (c9Leaf_length n))]
      simp [c9Leaf, List.range_succ, IndexEntry.newEntry, c9Ptr, TuplePointer.mkPtr]
    have hins : insertIntoPage (c9Leaf n) n (c9Ptr n) = .ok (c9Leaf (n + 1), none) := by
      unfold insertIntoPage
      rw [c9Leaf_binarySearch]
      dsimp only
      rw [hia]
    rw [hstep, ih hn']
    show c9Step (.ok (⟨1, [(0, c9Leaf n)]⟩, List.replicate n none)) n =
      .ok (⟨1, [(0, c9Leaf (n + 1))]⟩, List.replicate (n + 1) none)
    simp only [c9Step, BTree.insertIdx, c9Tree, IndexFileState.readPage,
      List.lookup, beq_self_eq_true, hins, IndexFileState.writePage,
      List.filter, bne_self_eq_false, List.replicate_succ']

theorem c9_entries253 :
    (c9Leaf 252).entries.take 252 ++
        IndexEntry.newEntry 252 (c9Ptr 252) :: (c9Leaf 252).entries.drop 252 =
      (List.range 253).map fun i => IndexEntry.mk i 0 1 i := by
  rw [List.take_of_length_le (le_of_eq (c9Leaf_length 252)),
    List.drop_eq_nil_of_le (le_of_eq (c9Leaf_length 252)),
    show (253 : Nat) = 252 + 1 from rfl, List.range_succ]
  simp [c9Leaf, IndexEntry.newEntry, c9Ptr, TuplePointer.mkPtr]

theorem c9_take126 :
    ((List.range 253).map fun i => IndexEntry.mk i 0 1 i).take 126 =
      (List.range 126).map fun i => IndexEntry.mk i 0 1 i := by
  rw [List.range_eq_range', show (253 : Nat) = 126 + 127 from rfl,
    ← List.range'_append 0 126 127 1, List.map_append,
    List.take_append_of_le_length (by simp)]
  rw [List.range_eq_range']
  simp

theorem c9_drop126 :
    ((List.range 253).map fun i => IndexEntry.mk i 0 1 i).drop 126 =
      (List.range' 126 127).map fun i => IndexEntry.mk i 0 1 i := by
  rw [List.range_eq_range', show (253 : Nat) = 126 + 127 from rfl,
    ← List.range'_append 0 126 127 1, List.map_append,
    List.drop_append_of_le_length (by simp)]
  simp

theorem c9_splitPage :
    splitPage (c9Leaf 252) 252 (IndexEntry.newEntry 252 (c9Ptr 252)) =
      .ok (c9Leaf 126, some ⟨126, ⟨true, 0, 0,
        (List.range' 126 127).map fun i => IndexEntry.mk i 0 1 i⟩⟩) := by
  have hlen : ((List.range 253).map fun i => IndexEntry.mk i 0 1 i).length = 253 := by
    simp
  simp only [splitPage, c9_entries253, hlen]
  rw [show (253 / 2 : Nat) = 126 from rfl, c9_drop126, c9_take126]
  rw [List.range'_succ]
  simp only [List.map_cons]
  simp only [IndexPage.setEntries, c9Leaf, MAX_ENTRIES]
  rw [if_neg (by simp), if_neg (by simp)]

theorem c9_insertIntoPage_252 :
    insertIntoPage (c9Leaf 252) 252 (c9Ptr 252) =
      .ok (c9Leaf 126, some ⟨126, ⟨true, 0, 0,
        (List.range' 126 127).map fun i => IndexEntry.mk i 0 1 i⟩⟩) := by
  have hia : (c9Leaf 252).insertAt 252 (IndexEntry.newEntry 252 (c9Ptr 252)) =
      .error .pageFull := by
    unfold IndexPage.insertAt
    rw [if_pos (by rw [c9Leaf_length]; simp [MAX_ENTRIES])]
  unfold insertIntoPage
  rw [c9Leaf_binarySearch]
  dsimp only
  rw [hia]
  exact c9_splitPage

set_option maxRecDepth 16384 in
set_option maxHeartbeats 1000000 in
/-- C9: inserting the 253 distinct pairs `(key = i, ptr_i)`, `i ∈ [0, 253)`
(with pairwise-distinct pointers) into a B+-tree whose root is an empty
leaf: the first 252 inserts return no split; the 253rd returns a split
whose `promoted_key` is 126 (= `keys[126]`, the midpoint of the 253
in-memory entries); the root page keeps keys `0..125` and the returned
right sibling holds keys `126..252` with their pointers, in order. -/
theorem C9_btree_midpoint_split :
    ((List.range 253).map c9Ptr).Nodup ∧
    (c9Run 253).toOption.map (fun p => p.2.map Option.isSome) =
      some (List.replicate 252 false ++ [true]) ∧
    (c9Run 253).toOption.map (fun p => p.2.getLast?.map (Option.map fun s =>
        (s.promotedKey, s.rightSiblingData.entries))) =
      some (some (some (126, (List.range' 126 127).map fun i =>
        IndexEntry.mk i 0 1 i))) ∧
    (c9Run 253).toOption.map (fun p => (p.1.pages.lookup 0).map IndexPage.entries) =
      some (some ((List.range 126).map fun i => IndexEntry.mk i 0 1 i)) := by
  have hstep : c9Run 253 = c9Step (c9Run 252) 252 := by
    show (List.range 253).foldl c9Step (.ok (c9File, [])) =
      c9Step ((List.range 252).foldl c9Step (.ok (c9File, []))) 252
    conv_lhs => rw [List.range_succ, List.foldl_append,
      List.foldl_cons, List.foldl_nil]
  have h252 := c9Run_closed 252 (by omega)
  have hfinal : c9Step (.ok (⟨1, [(0, c9Leaf 252)]⟩, List.replicate 252 none)) 252 =
      .ok (⟨2, [(1, ⟨true, 0, 0, (List.range' 126 127).map fun i =>
              IndexEntry.mk i 0 1 i⟩), (0, c9Leaf 126)]⟩,
        List.replicate 252 none ++ [some ⟨126, ⟨true, 0, 0,
          (List.range' 126 127).map fun i => IndexEntry.mk i 0 1 i⟩⟩]) := by
    simp only [c9Step, BTree.insertIdx, c9Tree, IndexFileState.readPage,
      List.lookup, beq_self_eq_true, c9_insertIntoPage_252,
      IndexFileState.writePage, IndexFileState.allocatePage,
      List.filter, bne_self_eq_false]
    rfl
  rw [hstep, h252, hfinal]
  refine ⟨?_, ?_, ?_, ?_⟩
  · exact (List.nodup_range 253).map (fun a b h => by
      simpa [c9Ptr, TuplePointer.mkPtr] using congrArg TuplePointer.slotId h)
  · simp [Except.toOption]
  · simp [Except.toOption]
  · simp [Except.toOption, List.lookup, c9Leaf]

/-! ## Hash index (`src/storage/index/hash.rs`)

`HashIndex { root_page_id, bucket_pages, seed }`.  `bucket_pages` is a
`HashMap<u32, PageId>` held only in memory (modelled as an association
list); nothing of it, nor the seed, is ever written to disk. -/

structure HashIndex where
  rootPageId : Option Nat
  bucketPages : List (Nat × Nat)
  seed : Nat
deriving DecidableEq

/-- `HashIndex::new`: `generate_seed()` draws from system time and
`RandomState`; the model takes that entropy as the `entropy` parameter
(a `u64`).  `bucket_pages` starts empty. -/
def HashIndex.newIndex (entropy : Nat) (rootPageId : Option Nat) : HashIndex :=
  ⟨rootPageId, [], entropy % U64⟩

/-- `HashIndex::hash_key`: seed XOR key, two MurmurHash3-style
multiply-and-shift diffusion rounds, truncated to the low 32 bits. -/
def HashIndex.hashKey (h : HashIndex) (key : Nat) : Nat :=
  let x0 := (h.seed ^^^ key % U64) % U64
  let x1 := x0 * 0xff51afd7ed558ccd % U64
  let x2 := (x1 ^^^ x1 >>> 32) % U64
  let x3 := x2 * 0xc4ceb9fe1a85ec53 % U64
  let x4 := (x3 ^^^ x3 >>> 33) % U64
  x4 % U32

/-- `HashIndex::search_in_page`: scan the entries `0..num_keys` for the
first one whose key matches. -/
def searchInPage (page : IndexPage) (key : Nat) : Option Nat :=
  page.entries.findIdx? (fun e => e.key == key)

/-- `HashIndex::update_entry`: overwrite the entry at `pos` (the
out-of-range guard mirrors the source's "Entry position out of range"). -/
def IndexPage.updateEntry (p : IndexPage) (pos : Nat) (e : IndexEntry) :
    Except DbError IndexPage :=
  if pos ≥ p.entries.length then .error .entryOutOfRange
  else .ok { p with entries := p.entries.set pos e }

/-- The bucket-chain loop of `impl Index for HashIndex :: insert`: update
in place on a hit; append at `num_keys` otherwise; on "page full" follow
the sibling chain, allocating and linking an overflow page at its end.
The source loop is unbounded (a cyclic chain diverges); the model carries
fuel, sufficient for the acyclic states the claims reach. -/
def hashInsertGo (key : Nat) (ptr : TuplePointer) :
    Nat → Nat → IndexFileState → Except DbError (IndexFileState × Option IndexSplit)
  | _, 0, _ => .error .loopLimit
  | currentId, fuel + 1, f =>
    match f.readPage currentId with
    | .error e => .error e
    | .ok page =>
      match searchInPage page key with
      | some pos =>
        match page.updateEntry pos (IndexEntry.newEntry key ptr) with
        | .error e => .error e
        | .ok p2 => .ok (f.writePage currentId p2, none)
      | none =>
        match page.insertAt page.entries.length (IndexEntry.newEntry key ptr) with
        | .ok p2 => .ok (f.writePage currentId p2, none)
        | .error .pageFull =>
          match page.nextSibling with
          | some nextId => hashInsertGo key ptr nextId fuel f
          | none =>
            match (f.allocatePage.1, f.allocatePage.2) with
            | (f1, overflowId) =>
              match (IndexPage.newPage true).insertAt 0
                  (IndexEntry.newEntry key ptr) with
              | .error e => .error e
              | .ok op =>
                .ok (((f1.writePage currentId
                    (page.setNextSibling (some overflowId))).writePage
                  overflowId op), none)
        | .error e => .error e

/-- `impl Index for HashIndex :: insert`: hash the key, get or allocate
the bucket's first page (`get_bucket_page` registers it in
`bucket_pages`), then run the chain loop. -/
def HashIndex.insertIdx (h : HashIndex) (key : Nat) (ptr : TuplePointer)
    (f : IndexFileState) :
    Except DbError (HashIndex × IndexFileState × Option IndexSplit) :=
  let bucketHash := h.hashKey key
  match h.bucketPages.lookup bucketHash with
  | some pid =>
    match hashInsertGo key ptr pid (f.pages.length + 1) f with
    | .error e => .error e
    | .ok (f2, r) => .ok (h, f2, r)
  | none =>
    match (f.allocatePage.1, f.allocatePage.2) with
    | (f0, pid) =>
      let f1 := f0.writePage pid (IndexPage.newPage true)
      let h2 := { h with bucketPages := (bucketHash, pid) :: h.bucketPages }
      match hashInsertGo key ptr pid (f1.pages.length + 1) f1 with
      | .error e => .error e
      | .ok (f2, r) => .ok (h2, f2, r)

/-- The bucket-chain loop of `impl Index for HashIndex :: search`. -/
def hashSearchGo (f : IndexFileState) (key : Nat) :
    Nat → Nat → Except DbError (Option TuplePointer)
  | _, 0 => .error .loopLimit
  | currentId, fuel + 1 =>
    match f.readPage currentId with
    | .error e => .error e
    | .ok page =>
      match searchInPage page key with
      | some pos =>
        match page.getEntry pos with
        | .error e => .error e
        | .ok e => .ok (some e.asTuplePointer)
      | none =>
        match page.nextSibling with
        | some nextId => hashSearchGo f key nextId fuel
        | none => .ok none

/-- `impl Index for HashIndex :: search`: a key whose bucket has no entry
in `bucket_pages` is not found. -/
def HashIndex.searchIdx (h : HashIndex) (key : Nat) (f : IndexFileState) :
    Except DbError (Option TuplePointer) :=
  match h.bucketPages.lookup (h.hashKey key) with
  | none => .ok none
  | some pid => hashSearchGo f key pid (f.pages.length + 1)

/-! ## Dynamic index dispatch (`src/storage/index/mod.rs`)

The `Database` holds every index as `Box<dyn Index>`.  A trait object's
vtable is built from the `impl Index for ...` block alone: neither
`impl Index for BTree` nor `impl Index for HashIndex` overrides the
trait's default `capability()` (`PointOnly`) or `range_scan` (empty), so
through `dyn Index` both indexes report `PointOnly` and scan nothing —
the `impl OrderedIndex for BTree` overrides are never reached. -/

/-- `IndexCapability`. -/
inductive IndexCapability where
  | pointOnly
  | ordered
deriving DecidableEq

/-- One `Box<dyn Index>` value: a `BTree` or a `HashIndex`. -/
inductive IndexImpl where
  | btree (t : BTree)
  | hash (h : HashIndex)
deriving DecidableEq

/-- `capability()` through the vtable: the trait default for both. -/
def IndexImpl.capability : IndexImpl → IndexCapability
  | .btree _ => .pointOnly
  | .hash _ => .pointOnly

/-- `range_scan` through the vtable: the trait default (empty) for both. -/
def IndexImpl.rangeScanDyn (_i : IndexImpl) (_startKey _endKey : Nat)
    (_f : IndexFileState) : Except DbError (List (Nat × TuplePointer)) :=
  .ok []

/-- `insert` through the vtable (`&mut self`: the hash index's
`bucket_pages` mutation is returned). -/
def IndexImpl.insertDyn : IndexImpl → Nat → TuplePointer → IndexFileState →
    Except DbError (IndexImpl × IndexFileState × Option IndexSplit)
  | .btree t, key, ptr, f =>
    match t.insertIdx key ptr f with
    | .error e => .error e
    | .ok (f2, r) => .ok (.btree t, f2, r)
  | .hash h, key, ptr, f =>
    match h.insertIdx key ptr f with
    | .error e => .error e
    | .ok (h2, f2, r) => .ok (.hash h2, f2, r)

/-- `search` through the vtable. -/
def IndexImpl.searchDyn : IndexImpl → Nat → IndexFileState →
    Except DbError (Option TuplePointer)
  | .btree t, key, f => t.searchIdx key f
  | .hash h, key, f => h.searchIdx key f

/-- `IndexBuilderRegistry::create_index` with the builders installed by
`register_builtin_indexes`: `BTreeBuilder` makes `BTree::new`,
`HashIndexBuilder` makes `HashIndex::new` (which draws a fresh seed from
entropy); any other type name is unknown. -/
def createIndexRegistry (indexType : String) (entropy : Nat)
    (rootPageId : Option Nat) : Option IndexImpl :=
  if indexType = "btree" then some (.btree ⟨rootPageId⟩)
  else if indexType = "hash" then some (.hash (HashIndex.newIndex entropy rootPageId))
  else none

/-- `PageId::new(segment, offset).raw()`. -/
def pageIdRaw (segment offset : Nat) : Nat :=
  (segment % U16) <<< 16 ||| offset % U16

/-- `PageId::segment_id` of a raw page id. -/
def pageIdSegment (raw : Nat) : Nat := raw >>> 16 % U16

/-- `PageId::page_offset` of a raw page id. -/
def pageIdOffset (raw : Nat) : Nat := raw % U16

/-! ## Schema and catalog metadata (`src/types.rs`, `src/storage/catalog.rs`)

`Column` is carried as its name and primary-key flag (`data_type` is never
consulted by the storage operations modelled here).  `Schema` is the column
list; only `Schema::len` and the primary-key lookup are used. -/

structure Column where
  name : String
  isPrimaryKey : Bool
deriving DecidableEq

/-- `Schema { columns }`. -/
abbrev Schema := List Column

/-- `IndexFileMetadata` — the complete per-index record the catalog
persists: name, type string, file path and root page id.  It has no field
for a hash index's seed or its `bucket_pages`. -/
structure IndexFileMetadataC where
  name : String
  indexType : String
  filePath : String
  rootPageSegment : Nat
  rootPageOffset : Nat
deriving DecidableEq

/-- `TableFileMetadata`. -/
structure TableFileMetadataC where
  name : String
  filePath : String
  schema : Schema
  nextSegmentId : Nat
  primaryIndex : Option IndexFileMetadataC
  secondaryIndexes : List IndexFileMetadataC
deriving DecidableEq

/-- `Catalog { active_segment, tables }` (the `HashMap` as an association
list keyed by table name). -/
structure CatalogC where
  activeSegment : Nat
  tables : List (String × TableFileMetadataC)
deriving DecidableEq

/-- `Catalog::new`: active segment 0, no tables. -/
def CatalogC.newCatalog : CatalogC := ⟨0, []⟩

/-- Insert-or-replace into an association list, as `HashMap::insert` /
`IndexFile`-style keyed writes behave. -/
def assocPut {α β : Type} [BEq α] (l : List (α × β)) (k : α) (v : β) :
    List (α × β) :=
  (k, v) :: l.filter (fun q => q.1 != k)

/-! ## Files of one database directory

`src/storage/io.rs` is not part of the snapshot.  Modelled from the spec:
`Disk` does exact positioned reads and writes at byte offsets; a read of a
range that was never written fails (an `UnexpectedEof`, as §4.1's contract
and the WAL reader's handling of it describe).  The model keeps each
written record (segment header, block, index page, catalog segment) under
its offset key; absent key = never written = failing read. -/

/-- On-disk content of one `.tbl` file: the written segment headers and
the written blocks, keyed by `(segment_id, block_id)`. -/
structure TableFileData where
  headers : List (Nat × SegmentHeader)
  blocks : List ((Nat × Nat) × Block)

/-- On-disk state of a database directory: the two catalog segment files
(`catalog_0.db` / `catalog_1.db`, holding the table records a successful
`Catalog::serialize` wrote, or `none` when the file does not exist), the
`.tbl` files and the `.idx` files, keyed by path. -/
structure FSState where
  cat0 : Option (List TableFileMetadataC)
  cat1 : Option (List TableFileMetadataC)
  tblFiles : List (String × TableFileData)
  idxFiles : List (String × List (Nat × IndexPage))

/-- `Disk::open` for a `.tbl` path: open the existing file or create it
empty. -/
def FSState.openTbl (fs : FSState) (path : String) : FSState :=
  match fs.tblFiles.lookup path with
  | some _ => fs
  | none => { fs with tblFiles := (path, ⟨[], []⟩) :: fs.tblFiles }

/-- `Disk::open` for an `.idx` path. -/
def FSState.openIdx (fs : FSState) (path : String) : FSState :=
  match fs.idxFiles.lookup path with
  | some _ => fs
  | none => { fs with idxFiles := (path, []) :: fs.idxFiles }

/-- `TableFile::read_segment_header`: a header that was never written
fails the read; a written one is checked against `SEGMENT_MAGIC`. -/
def TableFileData.readHeader (d : TableFileData) (seg : Nat) :
    Except DbError SegmentHeader :=
  match d.headers.lookup seg with
  | none => .error .unexpectedEof
  | some h => if h.magic ≠ SEGMENT_MAGIC then .error .badMagic else .ok h

/-- `TableFile::write_segment_header`. -/
def TableFileData.writeHeader (d : TableFileData) (seg : Nat)
    (h : SegmentHeader) : TableFileData :=
  { d with headers := assocPut d.headers seg h }

/-- `TableFile::read_block`: out-of-range block ids are rejected; a block
that was never written fails the read. -/
def TableFileData.readBlock (d : TableFileData) (seg bid : Nat) :
    Except DbError Block :=
  if bid ≥ 31 then .error .posOutOfRange
  else match d.blocks.lookup (seg, bid) with
    | none => .error .unexpectedEof
    | some b => .ok b

/-- `TableFile::write_block`. -/
def TableFileData.writeBlock (d : TableFileData) (seg bid : Nat) (b : Block) :
    TableFileData :=
  { d with blocks := assocPut d.blocks (seg, bid) b }

/-- Runtime handle of an open `TableFile`: its path and the
`next_segment_id` counter, which `TableFile::open` always starts at 0. -/
structure TableHandle where
  path : String
  nextSegmentId : Nat
deriving DecidableEq

/-- Runtime handle of an open `IndexFile`: its path and the
`next_page_id` counter, which `IndexFile::open` always starts at 0. -/
structure IndexHandle where
  path : String
  nextPageId : Nat
deriving DecidableEq

/-- `TableFile::allocate_block` against the directory state: read the
segment header, claim the first free block and write the header back
(nothing is written when the segment is full). -/
def allocateBlockFS (fs : FSState) (path : String) (seg : Nat) :
    Except DbError (FSState × Option Nat) :=
  match fs.tblFiles.lookup path with
  | none => .error .unexpectedEof
  | some d =>
    match d.readHeader seg with
    | .error e => .error e
    | .ok h =>
      match allocateBlockHeader h seg with
      | (h2, some b) =>
        .ok ({ fs with tblFiles := assocPut fs.tblFiles path (d.writeHeader seg h2) },
          some b)
      | (_, none) => .ok (fs, none)

/-- The `IndexFileState` view of one open index file: the handle's
`next_page_id` plus the pages the file holds on disk. -/
def idxState (fs : FSState) (h : IndexHandle) : IndexFileState :=
  ⟨h.nextPageId, (fs.idxFiles.lookup h.path).getD []⟩

/-- Write an index-file view back: the pages go to the file, the counter
to the handle. -/
def putIdxState (fs : FSState) (h : IndexHandle) (st : IndexFileState) :
    FSState × IndexHandle :=
  ({ fs with idxFiles := assocPut fs.idxFiles h.path st.pages },
    { h with nextPageId := st.nextPageId })

/-! ## Database (`src/storage/mod.rs`) -/

/-- `IndexMetadata`: runtime record of one index, holding the live
`Box<dyn Index>` instance. -/
structure IndexMetadataS where
  name : String
  column : String
  indexType : String
  index : IndexImpl
deriving DecidableEq

/-- `TableMetadata` (runtime). -/
structure TableMetadataS where
  name : String
  filePath : String
  schema : Schema
  primaryIndex : Option IndexMetadataS
  secondaryIndexes : List IndexMetadataS
deriving DecidableEq

/-- `Database`: the directory state plus the runtime handle and metadata
maps (association lists for the `HashMap`s). -/
structure DatabaseS where
  fs : FSState
  tableFiles : List (String × TableHandle)
  indexFiles : List (String × IndexHandle)
  tables : List (String × TableMetadataS)
  catalog : CatalogC

/-- The primary-key column recovery picks: the schema's `is_primary_key`
column, else the first column, else the empty name. -/
def pkColumn (s : Schema) : String :=
  match s.find? (fun c => c.isPrimaryKey) with
  | some c => c.name
  | none => match s with
    | c :: _ => c.name
    | [] => ""

/-- Rebuild the runtime state for one recovered table
(`load_catalog_from_disk`'s loop body): open the table file (the handle's
`next_segment_id` restarts at 0 — `set_next_segment_id` is never called),
and when the record names a primary index, open its file (the handle's
`next_page_id` likewise restarts at 0) and re-create the index instance
from its type string and root page id alone.  Secondary indexes are not
reconstructed. -/
def loadOneTable (db : DatabaseS) (entropy : Nat) (m : TableFileMetadataC) :
    Option DatabaseS :=
  let fs1 := db.fs.openTbl m.filePath
  let th : TableHandle := ⟨m.filePath, 0⟩
  match m.primaryIndex with
  | some im =>
    let fs2 := fs1.openIdx im.filePath
    let rootPid := pageIdRaw im.rootPageSegment im.rootPageOffset
    match createIndexRegistry im.indexType entropy (some rootPid) with
    | none => none
    | some inst =>
      some { db with
        fs := fs2,
        indexFiles := assocPut db.indexFiles m.name ⟨im.filePath, 0⟩,
        tables := assocPut db.tables m.name
          ⟨m.name, m.filePath, m.schema,
            some ⟨im.name, pkColumn m.schema, im.indexType, inst⟩, []⟩,
        tableFiles := assocPut db.tableFiles m.name th }
  | none =>
    some { db with
      fs := fs1,
      tables := assocPut db.tables m.name
        ⟨m.name, m.filePath, m.schema, none, []⟩,
      tableFiles := assocPut db.tableFiles m.name th }

/-- `Database::load_catalog_from_disk`: read the catalog file of the
*active* segment (0 for a fresh `Catalog`); a missing file leaves the
database empty and returns `Ok`.  A present file installs its tables and
rebuilds their runtime state.  (The corruption–fallback arm is not
modelled: catalog files in this model are either absent or intact.) -/
def loadCatalogFromDisk (db : DatabaseS) (entropy : Nat) :
    DatabaseS × Except DbError Unit :=
  let slot := if db.catalog.activeSegment = 0 then db.fs.cat0 else db.fs.cat1
  match slot with
  | none => (db, .ok ())
  | some metas =>
    let db1 := { db with catalog :=
      ⟨db.catalog.activeSegment, metas.map (fun m => (m.name, m))⟩ }
    match metas.foldl
        (fun acc m => match acc with
          | none => none
          | some d => loadOneTable d entropy m) (some db1) with
    | none => (db1, .error .catalogLoadFailed)
    | some db2 => (db2, .ok ())

/-- `Database::save_catalog_to_disk`: serialize the catalog's table
records into the *inactive* segment's file, then flip the in-memory
active segment.  The already-active file is not rewritten. -/
def saveCatalogToDisk (db : DatabaseS) : DatabaseS :=
  let records := db.catalog.tables.map Prod.snd
  let fs1 := if db.catalog.activeSegment = 0
    then { db.fs with cat1 := some records }
    else { db.fs with cat0 := some records }
  let cat2 : CatalogC := ⟨1 - db.catalog.activeSegment % 2, db.catalog.tables⟩
  { db with fs := fs1, catalog := cat2 }

/-- `Database::new` over a directory state: a fresh `Catalog` (active
segment 0, empty) and a `load_catalog_from_disk` whose result is
discarded (`let _ = ...`). -/
def newDatabase (fs : FSState) (entropy : Nat) : DatabaseS :=
  (loadCatalogFromDisk ⟨fs, [], [], [], CatalogC.newCatalog⟩ entropy).1

/-- `Database::create_table`: open `table_<name>.tbl`, allocate segment 0,
open `index_<name>_pk.idx`, allocate the root page (nothing is written to
it), build the B-tree primary index, register the runtime state, add the
catalog record and save the catalog. -/
def createTable (db : DatabaseS) (name : String) (schema : Schema)
    (entropy : Nat) : DatabaseS × Except DbError Unit :=
  if (db.tables.lookup name).isSome then (db, .error .tableExists)
  else
    let path := "table_" ++ name ++ ".tbl"
    let fs1 := db.fs.openTbl path
    let segId := 0
    let th : TableHandle := ⟨path, 1⟩
    let fs2 := match fs1.tblFiles.lookup path with
      | none => fs1
      | some d =>
        let d2 := d.writeHeader segId (SegmentHeader.newHeader segId)
        { fs1 with tblFiles := assocPut fs1.tblFiles path d2 }
    let ipath := "index_" ++ name ++ "_pk.idx"
    let fs3 := fs2.openIdx ipath
    let rootPid := 0
    let ih : IndexHandle := ⟨ipath, 1⟩
    match createIndexRegistry "btree" entropy (some rootPid) with
    | none => ({ db with fs := fs3 }, .error .createIndexFailed)
    | some inst =>
      let meta : TableMetadataS :=
        ⟨name, path, schema, some ⟨"pk", "", "btree", inst⟩, []⟩
      let idxMeta : IndexFileMetadataC :=
        ⟨"pk", "btree", ipath, pageIdSegment rootPid, pageIdOffset rootPid⟩
      let catMeta : TableFileMetadataC :=
        ⟨name, path, schema, 1, some idxMeta, []⟩
      let db1 : DatabaseS :=
        { db with
          fs := fs3,
          tables := assocPut db.tables name meta,
          tableFiles := assocPut db.tableFiles name th,
          indexFiles := assocPut db.indexFiles name ih,
          catalog := { db.catalog with
            tables := assocPut db.catalog.tables name catMeta } }
      (saveCatalogToDisk db1, .ok ())

/-- `Database::insert_row`: look the table up, check the row arity,
serialize, allocate a block in segment 0, read it back, append the tuple,
write the block, and insert into the primary index keyed on the first
column (`Null` and non-`Int` keys are rejected).  Failures surface the
failing step; mutations performed before the failure persist (the file
handles are shared). -/
def insertRow (db : DatabaseS) (name : String) (row : Row) :
    DatabaseS × Except DbError Unit :=
  match db.tableFiles.lookup name with
  | none => (db, .error .tableNotFound)
  | some th =>
    match db.tables.lookup name with
    | none => (db, .error .tableNotFound)
    | some meta =>
      if row.length ≠ meta.schema.length then (db, .error .arityMismatch)
      else
        let rowBytes := encodeRow row
        match allocateBlockFS db.fs th.path 0 with
        | .error e => (db, .error e)
        | .ok (fs1, none) => ({ db with fs := fs1 }, .error .segmentFull)
        | .ok (fs1, some bid) =>
          match ((fs1.tblFiles.lookup th.path).getD ⟨[], []⟩).readBlock 0 bid with
          | .error _ => ({ db with fs := fs1 }, .error .readBlockFailed)
          | .ok blk =>
            match blk.appendTuple rowBytes with
            | none => ({ db with fs := fs1 }, .error .blockFull)
            | some (blk2, slotId) =>
              let d1 := ((fs1.tblFiles.lookup th.path).getD ⟨[], []⟩).writeBlock
                0 bid blk2
              let fs2 := { fs1 with tblFiles := assocPut fs1.tblFiles th.path d1 }
              let ptr : TuplePointer := ⟨0, bid, slotId⟩
              match meta.primaryIndex with
              | none => ({ db with fs := fs2 }, .ok ())
              | some pim =>
                match row.head? with
                | none => ({ db with fs := fs2 }, .error .emptyRow)
                | some (Value.Int n) =>
                  match db.indexFiles.lookup name with
                  | none => ({ db with fs := fs2 }, .error .indexFileNotFound)
                  | some ih =>
                    match pim.index.insertDyn (intToU64 n) ptr (idxState fs2 ih) with
                    | .error e => ({ db with fs := fs2 }, .error e)
                    | .ok (inst2, ifs2, _) =>
                      match putIdxState fs2 ih ifs2 with
                      | (fs3, ih2) =>
                        let pim2 := { pim with index := inst2 }
                        let meta2 := { meta with primaryIndex := some pim2 }
                        ({ db with
                          fs := fs3,
                          indexFiles := assocPut db.indexFiles name ih2,
                          tables := assocPut db.tables name meta2 }, .ok ())
                | some Value.Null => ({ db with fs := fs2 }, .error .nullPrimaryKey)
                | some _ => ({ db with fs := fs2 }, .error .pkNotInt)

/-- `Database::scan_table`: read segment 0's header and every used
block's slots in order, decoding each present tuple. -/
def scanTable (db : DatabaseS) (name : String) : Except DbError (List Row) :=
  match db.tableFiles.lookup name with
  | none => .error .tableNotFound
  | some th =>
    match db.fs.tblFiles.lookup th.path with
    | none => .error .unexpectedEof
    | some d =>
      match d.readHeader 0 with
      | .error e => .error e
      | .ok h =>
        (List.range 31).foldl (fun acc bid =>
          match acc with
          | .error e => .error e
          | .ok rows =>
            if h.isBlockFree bid then .ok rows
            else match d.readBlock 0 bid with
              | .error _ => .error .readBlockFailed
              | .ok blk =>
                (List.range blk.slotCount).foldl (fun acc2 sid =>
                  match acc2 with
                  | .error e => .error e
                  | .ok rows2 =>
                    match blk.readTuple sid with
                    | none => .ok rows2
                    | some bytes =>
                      match decodeRow bytes with
                      | none => .error .serializationErr
                      | some (row, _) => .ok (rows2 ++ [row])) (.ok rows))
          (.ok [])

/-- `Database::range_scan_index`: no primary index — empty; a primary
index whose `capability()` is not `Ordered` — empty; otherwise delegate
to the index's `range_scan` and keep the pointers. -/
def rangeScanIndex (db : DatabaseS) (name : String) (startKey endKey : Nat) :
    Except DbError (List TuplePointer) :=
  match db.tables.lookup name with
  | none => .error .tableNotFound
  | some meta =>
    match meta.primaryIndex with
    | none => .ok []
    | some pim =>
      if pim.index.capability ≠ .ordered then .ok []
      else
        match db.indexFiles.lookup name with
        | none => .error .indexFileNotFound
        | some ih =>
          match pim.index.rangeScanDyn startKey endKey (idxState db.fs ih) with
          | .error e => .error e
          | .ok rs => .ok (rs.map Prod.snd)

/-- `Database::find_secondary_index`: first secondary index on the
column. -/
def findSecondaryIndex (db : DatabaseS) (name column : String) :
    Except DbError (Option (String × IndexImpl)) :=
  match db.tables.lookup name with
  | none => .error .tableNotFound
  | some meta =>
    match meta.secondaryIndexes.find? (fun im => im.column == column) with
    | some im => .ok (some (im.name, im.index))
    | none => .ok none

/-- `Database::search_secondary_index`: find the index on the column,
fetch its file under the key `<table>_<index>` and search it. -/
def searchSecondaryIndex (db : DatabaseS) (name column : String) (key : Nat) :
    Except DbError (Option TuplePointer) :=
  match findSecondaryIndex db name column with
  | .error e => .error e
  | .ok none => .ok none
  | .ok (some (iname, inst)) =>
    match db.indexFiles.lookup (name ++ "_" ++ iname) with
    | none => .error .indexFileNotFound
    | some ih => inst.searchDyn key (idxState db.fs ih)

/-- `Database::create_secondary_index`: open the new index file, allocate
its root page (nothing is written to it), build the index instance, push
it onto the table's secondary list and register the file handle.  The
existing rows are *not* scanned into the index, and the catalog is not
updated (both are `TODO` in the source). -/
def createSecondaryIndex (db : DatabaseS) (indexName tableName columnName
    indexType : String) (entropy : Nat) : DatabaseS × Except DbError Unit :=
  match db.tables.lookup tableName with
  | none => (db, .error .tableNotFound)
  | some meta =>
    let ipath := "index_" ++ tableName ++ "_" ++ columnName ++ "_" ++
      indexName ++ ".idx"
    let fs1 := db.fs.openIdx ipath
    let rootPid := 0
    let ih : IndexHandle := ⟨ipath, 1⟩
    match createIndexRegistry indexType entropy (some rootPid) with
    | none => ({ db with fs := fs1 }, .error .createIndexFailed)
    | some inst =>
      let im : IndexMetadataS := ⟨indexName, columnName, indexType, inst⟩
      ({ db with
        fs := fs1,
        tables := assocPut db.tables tableName
          { meta with secondaryIndexes := meta.secondaryIndexes ++ [im] },
        indexFiles := assocPut db.indexFiles (tableName ++ "_" ++ indexName) ih },
        .ok ())

/-! ## Claim C1: catalog durability across a restart -/

/-- An empty working directory. -/
def freshFS : FSState := ⟨none, none, [], []⟩

/-- A `Database::new` over the empty directory. -/
def freshDb : DatabaseS := newDatabase freshFS 0

/-- The database after `create_table("t", [id PRIMARY KEY])`. -/
def c1Created : DatabaseS × Except DbError Unit :=
  createTable freshDb "t" [⟨"id", true⟩] 0

/-- The crash-equivalent restart: a new `Database` over the files the
first instance left behind. -/
def c1Restarted : DatabaseS := newDatabase c1Created.1.fs 0

/-- C1: `create_table` succeeds and durably writes the catalog — but only
into segment-1's file (`catalog_1.db`), flipping the in-memory active
segment to 1.  A restarted `Database` starts from a fresh `Catalog`
whose active segment is 0, looks for `catalog_0.db`, finds nothing, and
silently starts empty: the created table is not recovered, and
`scan_table` fails with the "Table not found" error instead of returning
the rows inserted before the crash. -/
theorem C1_create_table_not_recovered :
    c1Created.2 = .ok () ∧
    c1Created.1.fs.cat1 = some [⟨"t", "table_t.tbl", [⟨"id", true⟩], 1,
      some ⟨"pk", "btree", "index_t_pk.idx", 0, 0⟩, []⟩] ∧
    c1Created.1.fs.cat0 = none ∧
    c1Created.1.catalog.activeSegment = 1 ∧
    c1Restarted.tables = [] ∧
    scanTable c1Restarted "t" = .error .tableNotFound :=
  ⟨rfl, rfl, rfl, rfl, rfl, rfl⟩

/-! ## Claim C2: range scan through the primary index -/

/-- A primary-index leaf holding keys 1, 2, 3 with distinct pointers. -/
def c2Leaf : IndexPage := ⟨true, 0, 0, [⟨1, 0, 1, 1⟩, ⟨2, 0, 1, 2⟩, ⟨3, 0, 1, 3⟩]⟩

/-- A database whose table `nums` has a B-tree primary index (held as
`Box<dyn Index>`, as `create_table` builds it) whose index file's root
page holds keys 1, 2, 3 — the on-disk state the claim's scenario
describes after inserting primary keys 1, 2, 3. -/
def c2Db : DatabaseS :=
  ⟨⟨none, none, [], [("index_nums_pk.idx", [(0, c2Leaf)])]⟩,
    [("nums", ⟨"table_nums.tbl", 1⟩)],
    [("nums", ⟨"index_nums_pk.idx", 1⟩)],
    [("nums", ⟨"nums", "table_nums.tbl", [⟨"id", true⟩],
      some ⟨"pk", "", "btree", .btree ⟨some 0⟩⟩, []⟩)],
    ⟨0, []⟩⟩

/-- C2: `range_scan_index` does not delegate to the B-tree's range scan.
Through `Box<dyn Index>` the primary index's `capability()` is the trait
default `PointOnly` (`impl Index for BTree` does not override it), so
`range_scan_index("nums", 2, 3)` returns `Ok([])` — even though the
statically-dispatched `OrderedIndex` implementation on the same index
state returns exactly the two tuple pointers of keys 2 and 3. -/
theorem C2_range_scan_returns_empty :
    rangeScanIndex c2Db "nums" 2 3 = .ok [] ∧
    (c2Db.tables.lookup "nums").map
      (fun m => m.primaryIndex.map (fun pim => pim.index.capability)) =
      some (some .pointOnly) ∧
    BTree.rangeScanOrdered ⟨some 0⟩ 2 3
      (idxState c2Db.fs ⟨"index_nums_pk.idx", 1⟩) =
      .ok [(2, ⟨0, 1, 2⟩), (3, ⟨0, 1, 3⟩)] :=
  ⟨rfl, rfl, rfl⟩

/-! ## Claim C3: insert_row with a NULL primary key -/

/-- The database after creating table `t` with a single primary-key
column over a fresh directory. -/
def c3Db : DatabaseS := (createTable freshDb "t" [⟨"id", true⟩] 0).1

/-- C3 counterexample: on the freshly created table, `insert_row` with
the row `[Null]` does *not* return the NULL-primary-key error — it fails
earlier, reading the freshly allocated (never initialized) block — and it
*does* change state: the allocation marked block 1 used
(`blocks_used = 1`), and that header write persists. -/
theorem C3_counterexample :
    (insertRow c3Db "t" [Value.Null]).2 = .error .readBlockFailed ∧
    (insertRow c3Db "t" [Value.Null]).2 ≠ .error .nullPrimaryKey ∧
    ((insertRow c3Db "t" [Value.Null]).1.fs.tblFiles.lookup
      "table_t.tbl").map (fun d => (d.headers.lookup 0).map
        SegmentHeader.blocksUsed) = some (some 1) := by
  refine ⟨rfl, ?_, rfl⟩
  intro h
  cases h

/-- C3 (amended): on a freshly created table, `insert_row` with *any*
single-column row — the claim's `[Null]` included — never reaches the
primary-key NULL check: `read_block` on the freshly allocated,
never-written block fails first, so the returned error is the
read-block failure, and the failed call leaves a state change behind
(block 1 is now marked used). -/
theorem C3_null_pk_unreachable (v : Value) :
    (insertRow c3Db "t" [v]).2 = .error .readBlockFailed ∧
    ((insertRow c3Db "t" [v]).1.fs.tblFiles.lookup
      "table_t.tbl").map (fun d => (d.headers.lookup 0).map
        SegmentHeader.blocksUsed) = some (some 1) :=
  ⟨rfl, rfl⟩

/-! ## Claim C4: secondary index population -/

/-- A row whose `k` column (index 1) holds 100. -/
def c4Row : Row := [Value.Int 1, Value.Int 100]

/-- A block holding the serialized `c4Row` in slot 0. -/
def c4Block : Block :=
  ((Block.new.appendTuple (encodeRow c4Row)).map Prod.fst).getD Block.new

/-- Table-file content: segment 0's header with block 1 in use, and the
row stored in block 1. -/
def c4Data : TableFileData :=
  ⟨[(0, (SegmentHeader.newHeader 0).markBlockUsed 1)], [((0, 1), c4Block)]⟩

/-- A database whose table `t` (columns `id`, `k`) already contains
`c4Row`. -/
def c4Db : DatabaseS :=
  ⟨⟨none, none, [("table_t.tbl", c4Data)], []⟩,
    [("t", ⟨"table_t.tbl", 1⟩)],
    [],
    [("t", ⟨"t", "table_t.tbl", [⟨"id", true⟩, ⟨"k", false⟩], none, []⟩)],
    ⟨0, []⟩⟩

/-- The database after `create_secondary_index("idx", "t", "k", "hash")`. -/
def c4After : DatabaseS × Except DbError Unit :=
  createSecondaryIndex c4Db "idx" "t" "k" "hash" 0

/-- C4 counterexample: the table holds a row whose `k` column is 100 and
`create_secondary_index` succeeds, but the new index was never populated
from the existing rows (the index build is a `TODO` in the source), so
`search_secondary_index("t", "k", 100)` returns `Ok(None)` instead of a
pointer to the row. -/
theorem C4_counterexample :
    scanTable c4Db "t" = .ok [c4Row] ∧
    c4After.2 = .ok () ∧
    scanTable c4After.1 "t" = .ok [c4Row] ∧
    searchSecondaryIndex c4After.1 "t" "k" 100 = .ok none :=
  ⟨rfl, rfl, rfl, rfl⟩

/-- Looking a key up in an association list right after `assocPut` of
that key finds the stored value. -/
theorem lookup_assocPut_self {α β : Type} [BEq α] [LawfulBEq α]
    (l : List (α × β)) (k : α) (v : β) :
    (assocPut l k v).lookup k = some v := by
  simp [assocPut, List.lookup]

/-- Evaluation of the registry at type "hash". -/
theorem createIndexRegistry_hash (entropy : Nat) (r : Option Nat) :
    createIndexRegistry "hash" entropy r =
      some (.hash (HashIndex.newIndex entropy r)) := rfl

/-- A freshly built hash index finds nothing: its `bucket_pages` map is
empty in memory, whatever the index file holds. -/
theorem searchIdx_newIndex (entropy key : Nat) (r : Option Nat)
    (f : IndexFileState) :
    (HashIndex.newIndex entropy r).searchIdx key f = .ok none := rfl

/-- C4 (amended): after `create_secondary_index(index_name, table,
column, "hash")` on a table with no prior index on that column, the new
index is *not* populated from the table's existing rows:
`search_secondary_index(table, column, k)` returns `Ok(None)` for every
key `k` and every database state — the freshly created hash index has an
empty in-memory bucket map, so no search can produce a tuple pointer. -/
theorem C4_secondary_index_not_populated (db : DatabaseS)
    (indexName tableName columnName : String) (entropy key : Nat)
    (meta : TableMetadataS)
    (hm : db.tables.lookup tableName = some meta)
    (hcol : ∀ im ∈ meta.secondaryIndexes, im.column ≠ columnName) :
    searchSecondaryIndex
      (createSecondaryIndex db indexName tableName columnName "hash" entropy).1
      tableName columnName key = .ok none := by
  unfold createSecondaryIndex
  simp only [hm, createIndexRegistry_hash]
  unfold searchSecondaryIndex findSecondaryIndex
  simp only [lookup_assocPut_self]
  rw [List.find?_append]
  have hnone : meta.secondaryIndexes.find?
      (fun im => im.column == columnName) = none := by
    rw [List.find?_eq_none]
    intro im him
    simpa using hcol im him
  rw [hnone]
  simp only [Option.none_or, List.find?_cons, beq_self_eq_true]
  rw [lookup_assocPut_self]
  rfl

/-- C4 witness: the amended theorem applied to the concrete `c4Db`
scenario. -/
theorem C4_secondary_index_not_populated_witness :
    searchSecondaryIndex
      (createSecondaryIndex c4Db "idx" "t" "k" "hash" 0).1 "t" "k" 100 =
      .ok none :=
  C4_secondary_index_not_populated c4Db "idx" "t" "k" 0 100 _ rfl
    (by intro im him; cases him)

/-! ## Claim C5: hash-index seed persistence -/

/-- What recovery builds for a catalog index record: `create_index` on
its type string and root page id — for a hash index, `HashIndex::new`,
which draws a *fresh* seed from entropy and starts with an empty
`bucket_pages` map.  `IndexFileMetadata` carries no seed (and no bucket
map) to restore. -/
def reconstructIndex (m : IndexFileMetadataC) (entropy : Nat) :
    Option IndexImpl :=
  createIndexRegistry m.indexType entropy
    (some (pageIdRaw m.rootPageSegment m.rootPageOffset))

/-- The original hash index of the C5 scenario (its creation-time entropy
was 7). -/
def c5Original : HashIndex := HashIndex.newIndex 7 (some 0)

/-- Insert key 42 with pointer `(0, 1, 0)` into the fresh index over a
fresh index file. -/
def c5Inserted : Except DbError (HashIndex × IndexFileState × Option IndexSplit) :=
  c5Original.insertIdx 42 ⟨0, 1, 0⟩ IndexFileState.newFile

/-- C5 counterexample: the insert succeeds and the live index finds the
pointer again; but an index reconstructed from the persisted metadata
record — even reusing the very same entropy, so the seed is equal —
returns `None` for the same key on the same index file, because the
bucket map lived only in memory and the metadata record has no field
that could have carried the seed or the buckets. -/
theorem C5_counterexample :
    c5Inserted.toOption.map (fun r =>
      (r.1.searchIdx 42 r.2.1,
        (reconstructIndex ⟨"sec", "hash", "index_t_k_sec.idx", 0, 0⟩ 7).map
          (fun i => i.searchDyn 42 r.2.1),
        r.1.seed)) =
      some (.ok (some ⟨0, 1, 0⟩), some (.ok none), 7) := rfl

/-- C5 (amended): a hash index reconstructed from its persisted catalog
record finds nothing: for every metadata record of type "hash", every
entropy, every key and every index-file state, the rebuilt index's
search returns `Ok(None)` — the seed and the bucket map are not
persisted, and the rebuilt bucket map is empty. -/
theorem C5_hash_reopen_loses_index (m : IndexFileMetadataC)
    (entropy key : Nat) (f : IndexFileState) (hty : m.indexType = "hash") :
    (reconstructIndex m entropy).map (fun i => i.searchDyn key f) =
      some (.ok none) := by
  unfold reconstructIndex
  rw [hty]
  rfl

/-- C5 witness: the amended theorem at a concrete record, entropy, key
and file state. -/
theorem C5_hash_reopen_loses_index_witness :
    (reconstructIndex ⟨"sec", "hash", "index_t_k_sec.idx", 0, 0⟩ 3).map
      (fun i => i.searchDyn 42 IndexFileState.newFile) = some (.ok none) :=
  C5_hash_reopen_loses_index _ 3 42 IndexFileState.newFile rfl

/-! ## Claim C10: block allocation per insert -/

/-- Repeat `insert_row` `n` times, collecting each call's result
(mutations persist across failed calls: the handles are shared). -/
def insertRun (nm : String) (row : Row) (db : DatabaseS) (n : Nat) :
    DatabaseS × List (Except DbError Unit) :=
  (List.range n).foldl (fun acc _ =>
    match insertRow acc.1 nm row with
    | (db2, r) => (db2, acc.2 ++ [r])) (db, [])

/-- The database after creating table `t` over a fresh directory. -/
def c10Db : DatabaseS := (createTable freshDb "t" [⟨"id", true⟩] 0).1

/-- C10 counterexample: the very first `insert_row` on the fresh table
does not succeed (no row is ever stored at slot 0 of the new block): it
fails reading the freshly allocated block back, and the failure is the
read-block error, not the segment-full error. -/
theorem C10_counterexample :
    (insertRow c10Db "t" [Value.Int 1]).2 = .error .readBlockFailed ∧
    (insertRow c10Db "t" [Value.Int 1]).2 ≠ .ok () := by
  refine ⟨rfl, ?_⟩
  intro h
  cases h

/-- C10 (amended): each `insert_row` attempt on the fresh table does
allocate a brand-new block of segment 0 (blocks 1-30; block 0 is
reserved) rather than reusing one — but every attempt then fails with
the read-block error, so no insert succeeds; after 30 attempts the
segment's 30 allocatable blocks are exhausted and the 31st attempt fails
with the segment-full error, with `blocks_used = 30`. -/
theorem C10_thirty_allocations_then_full :
    (insertRun "t" [Value.Int 1] c10Db 31).2 =
      List.replicate 30 (.error .readBlockFailed) ++ [.error .segmentFull] ∧
    ((insertRun "t" [Value.Int 1] c10Db 31).1.fs.tblFiles.lookup
      "table_t.tbl").map (fun d => (d.headers.lookup 0).map
        SegmentHeader.blocksUsed) = some (some 30) ∧
    ((insertRun "t" [Value.Int 1] c10Db 31).1.fs.tblFiles.lookup
      "table_t.tbl").map (fun d => (d.headers.lookup 0).map
        countCleared) = some (some 30) :=
  ⟨rfl, rfl, rfl⟩

end Flint

